import Mathlib

/-!
# Verification of the `cpp-learning` exercises

Shallow embedding of the exercise programs under `cpp-learning/04-exercises`
(`fizzbuzz.cpp`, `palindrome.cpp`, `calculator.cpp`), of the class template
`Stack` of `03-advanced/templates.cpp`, of the class `BankAccount` of
`02-intermediate/classes_objects.cpp`, of `factorial`, `swapByValue` and
`swapByReference` of `01-basics/functions.cpp` and of the lambda
`applyOperation` of `03-advanced/lambda_expressions.cpp`, and proofs of their
specified properties.

Conventions of the embedding

* `int` is a 32-bit integer in twos-complement and `size_t` a 64-bit unsigned
  integer (LP64).  Values are carried in `Int`; every conversion to `int` and
  every `int` increment/decrement goes through `toInt32`, every `size_t`
  operation through `% 2^64`.
* `char` is modelled by `Char`; `std::isalnum` and `std::tolower` are taken in
  the default "C" locale, where exactly the ASCII letters and digits are
  alphanumeric and exactly `A`..`Z` are changed by `tolower`
  (`Char.isAlphanum`, `Char.toLower`).
* `double` is a type parameter `α` of the calculator and of the bank account
  together with its arithmetic and comparisons (`+`, `-`, `*`, `/`, `== 0`,
  `<`, `<=`): the theorems hold for every interpretation of the arithmetic.
  Demo values of the calculator are evaluated in `ℚ`.  Where rounding decides
  a property (the bank account), `α` is `Double`, a model of IEEE 754 binary64
  with round-to-nearest-even, infinities and NaN.
* A call of a recursive function takes an activation record on a call stack of
  bounded size (`factorialOnStack`); a run that exhausts the stack is killed
  and returns nothing.
* A C++ exception is an `Except.error` carrying the `what()` message.
-/

namespace CppLearning

/-! ## Machine integers -/

/-- Conversion of an integer value to a 32-bit `int` (wrap to twos-complement). -/
def toInt32 (z : Int) : Int := (z + 2147483648) % 4294967296 - 2147483648

/-- Reduction of an integer value to a 64-bit `size_t`. -/
def toSizeT (z : Int) : Int := z % 18446744073709551616

/-! ## fizzbuzz.cpp -/

/-- Text written by the body of the `for` loop of `fizzbuzz.cpp` (lines 19-33)
for the counter value `i`; `%` on `int` is the truncated remainder. -/
def fizzBuzzEntry (i : Int) : String :=
  if Int.tmod i 3 = 0 ∧ Int.tmod i 5 = 0 then "FizzBuzz"
  else if Int.tmod i 3 = 0 then "Fizz"
  else if Int.tmod i 5 = 0 then "Buzz"
  else toString i

/-! ## palindrome.cpp -/

/-- Ways in which a run of the scan can go wrong in the model: a read of
`cleaned[i]` outside the string, or the loop outliving its fuel. -/
inductive Fault where
  | outOfBounds
  | outOfFuel
  deriving DecidableEq

/-- The cleaning loop shared by both palindrome functions (lines 17-22 and
42-47): every alphanumeric character is appended, lowercased, to `cleaned`. -/
def cleaned (str : List Char) : List Char :=
  str.foldl (fun acc c => if c.isAlphanum then acc ++ [c.toLower] else acc) []

/-- The read `cleaned[i]` with an `int` index; `none` when outside the string. -/
def charAt (cl : List Char) (i : Int) : Option Char :=
  if 0 ≤ i then cl.get? i.toNat else none

/-- The `while (left < right)` loop of `isPalindrome` (lines 28-34). -/
def twoPointerLoop (cl : List Char) : Nat → Int → Int → Except Fault Bool
  | 0, _, _ => .error .outOfFuel
  | fuel + 1, left, right =>
    if left < right then
      match charAt cl left, charAt cl right with
      | some a, some b =>
        if a ≠ b then .ok false
        else twoPointerLoop cl fuel (toInt32 (left + 1)) (toInt32 (right - 1))
      | _, _ => .error .outOfBounds
    else .ok true

/-- The function `isPalindrome` (lines 15-37): `left = 0`,
`right = cleaned.length() - 1` computed in `size_t` and converted to `int`,
then the two-pointer loop. -/
def isPalindrome (str : String) : Except Fault Bool :=
  let cl := cleaned str.data
  let left : Int := 0
  let right : Int := toInt32 (toSizeT ((cl.length : Int) - 1))
  twoPointerLoop cl (cl.length + 1) left right

/-- The function `isPalindromeReverse` (lines 40-55). -/
def isPalindromeReverse (str : String) : Bool :=
  let cl := cleaned str.data
  let reversed := cl.reverse
  cl == reversed

/-- The normalized string in the words of the specification: the alphanumeric
characters of `s`, in order, each lowercased. -/
def normalized (s : String) : List Char :=
  (s.data.filter Char.isAlphanum).map Char.toLower

/-- Character `b` is `a` with its case possibly changed. -/
def caseVariant (a b : Char) : Prop :=
  b = a ∨ b = a.toUpper ∨ b = a.toLower

/-- The list `t` is obtained from `s` by inserting and deleting
non-alphanumeric characters at arbitrary positions. -/
inductive PunctEdit : List Char → List Char → Prop where
  | nil : PunctEdit [] []
  | keep (c : Char) {s t : List Char} : PunctEdit s t → PunctEdit (c :: s) (c :: t)
  | insert (c : Char) {s t : List Char} :
      c.isAlphanum = false → PunctEdit s t → PunctEdit s (c :: t)
  | delete (c : Char) {s t : List Char} :
      c.isAlphanum = false → PunctEdit s t → PunctEdit (c :: s) t

/-- A string of 2^31 + 1 letters that is not a palindrome. -/
def longNonPalindrome : String :=
  ⟨List.replicate 2147483648 'a' ++ ['b']⟩

/-- A second non-palindrome of 2^31 + 1 characters, with digits. -/
def longDigits : String :=
  ⟨List.replicate 2147483648 '0' ++ ['1']⟩

/-! ## calculator.cpp -/

/-- The class `Calculator` (lines 12-15): the last computed result, a `double`
modelled by the parameter `α`, and the `int` operation count. -/
structure Calculator (α : Type) where
  lastResult : α
  operationCount : Int

/-- The constructor (line 19): `lastResult(0.0), operationCount(0)`. -/
def Calculator.new {α : Type} [Zero α] : Calculator α := ⟨0, 0⟩

/-- The statement `operationCount++` on the `int` member. -/
def Calculator.countOperation {α : Type} (c : Calculator α) : Calculator α :=
  ⟨c.lastResult, toInt32 (c.operationCount + 1)⟩

/-- The final `return lastResult;` of an operation: the returned value together
with the calculator after the call. -/
def Calculator.returnLastResult {α : Type} (c : Calculator α) : α × Calculator α :=
  (c.lastResult, c)

/-- The method `add` (lines 24-28). -/
def Calculator.add {α : Type} [Add α] (c : Calculator α) (a b : α) : α × Calculator α :=
  let c1 : Calculator α := ⟨a + b, c.operationCount⟩
  let c2 := c1.countOperation
  c2.returnLastResult

/-- The method `subtract` (lines 30-34). -/
def Calculator.subtract {α : Type} [Sub α] (c : Calculator α) (a b : α) : α × Calculator α :=
  let c1 : Calculator α := ⟨a - b, c.operationCount⟩
  let c2 := c1.countOperation
  c2.returnLastResult

/-- The method `multiply` (lines 36-40). -/
def Calculator.multiply {α : Type} [Mul α] (c : Calculator α) (a b : α) : α × Calculator α :=
  let c1 : Calculator α := ⟨a * b, c.operationCount⟩
  let c2 := c1.countOperation
  c2.returnLastResult

/-- The method `divide` (lines 42-49): throws `std::runtime_error` when
`b == 0`, before touching the state. -/
def Calculator.divide {α : Type} [Div α] [Zero α] [BEq α] (c : Calculator α) (a b : α) :
    Except String (α × Calculator α) :=
  if b == 0 then .error "Division by zero!"
  else
    let c1 : Calculator α := ⟨a / b, c.operationCount⟩
    let c2 := c1.countOperation
    .ok c2.returnLastResult

/-- The loop `for (int i = 0; i < exponent; i++) lastResult *= base;` of `power`
(lines 53-55), started at counter `i`, with one unit of fuel per iteration. -/
def Calculator.powerLoop {α : Type} [Mul α] (base : α) (exponent : Int) :
    Nat → Int → α → α
  | 0, _, lastResult => lastResult
  | fuel + 1, i, lastResult =>
    if i < exponent then
      Calculator.powerLoop base exponent fuel (toInt32 (i + 1)) (lastResult * base)
    else lastResult

/-- The method `power` (lines 51-58); the loop runs `exponent` times when
`exponent` is positive and not at all otherwise. -/
def Calculator.power {α : Type} [One α] [Mul α] (c : Calculator α) (base : α)
    (exponent : Int) : α × Calculator α :=
  let c1 : Calculator α :=
    ⟨Calculator.powerLoop base exponent exponent.toNat 0 1, c.operationCount⟩
  let c2 := c1.countOperation
  c2.returnLastResult

/-- The getter `getLastResult` (lines 61-63). -/
def Calculator.getLastResult {α : Type} (c : Calculator α) : α := c.lastResult

/-- The getter `getOperationCount` (lines 65-67). -/
def Calculator.getOperationCount {α : Type} (c : Calculator α) : Int := c.operationCount

/-- The method `reset` (lines 70-74). -/
def Calculator.reset {α : Type} [Zero α] (_c : Calculator α) : Calculator α := ⟨0, 0⟩

/-- A calculator over `ℚ` whose operation count has reached `INT_MAX`. -/
def saturatedCalculator : Calculator ℚ := ⟨0, 2147483647⟩

/-- The product of `n` copies of `base` in the words of the specification,
with the empty product equal to 1; the factors are multiplied from the left,
starting from 1. -/
def productOfCopies {α : Type} [Mul α] [One α] (base : α) : Nat → α
  | 0 => 1
  | n + 1 => productOfCopies base n * base

/-- The statistics shown by `displayStats` (lines 77-80): the last result and
the number of operations performed. -/
structure Stats where
  lastResult : ℚ
  operations : Int
  deriving DecidableEq

/-- The method `displayStats` (lines 77-80), as the pair of values it prints. -/
def Calculator.displayStats (c : Calculator ℚ) : Stats :=
  ⟨c.lastResult, c.operationCount⟩

/-- What the calculator demo shows: the statistics after the first five
operations, the message reported by the `catch` block (if the `try` block
threw), and the final statistics. -/
structure DemoReport where
  firstStats : Stats
  caught : Option String
  finalStats : Stats
  deriving DecidableEq

/-- The function `main` of `calculator.cpp` (lines 83-125).  An exception
outside the `try` block ends the program (`Except.error`); the one thrown by
`calc.divide(10, 0)` inside it is caught and the calculator is used further. -/
def calculatorMain : Except String DemoReport :=
  let c0 : Calculator ℚ := Calculator.new
  let c1 := (c0.add 10 5).2
  let c2 := (c1.subtract 20 8).2
  let c3 := (c2.multiply 6 7).2
  match c3.divide 100 4 with
  | .error e => .error e
  | .ok (_, c4) =>
    let c5 := (c4.power 2 8).2
    let firstStats := c5.displayStats
    let afterTry : Option String × Calculator ℚ :=
      match c5.divide 10 0 with
      | .error e => (some e, c5)
      | .ok r => (none, r.2)
    let r7 := afterTry.2.add 5 5
    let r8 := r7.2.multiply r7.1 2
    let r9 := r8.2.subtract r8.1 10
    .ok ⟨firstStats, afterTry.1, r9.2.displayStats⟩

/-! ## templates.cpp: the class template `Stack` -/

/-- The class template `Stack<T>` (lines 96-129): a `std::vector<T>` whose back
is the top of the stack. -/
structure Stack (T : Type) where
  elements : List T

/-- A default-constructed, empty stack (`Stack<int> intStack;`). -/
def Stack.new {T : Type} : Stack T := ⟨[]⟩

/-- The method `push` (lines 101-103): `elements.push_back(element)`. -/
def Stack.push {T : Type} (s : Stack T) (element : T) : Stack T :=
  ⟨s.elements ++ [element]⟩

/-- The method `empty` (lines 121-123). -/
def Stack.empty {T : Type} (s : Stack T) : Bool := s.elements.isEmpty

/-- The method `size` (lines 125-127). -/
def Stack.size {T : Type} (s : Stack T) : Nat := s.elements.length

/-- The method `pop` (lines 105-112): the value returned, or the exception
thrown, together with the stack after the call. -/
def Stack.pop {T : Type} (s : Stack T) : Except String T × Stack T :=
  if s.empty then (.error "Stack is empty!", s)
  else
    match s.elements.getLast? with
    | some top => (.ok top, ⟨s.elements.dropLast⟩)
    | none => (.error "back() of an empty vector", s)

/-- The method `top` (lines 114-119), a `const` method. -/
def Stack.top {T : Type} (s : Stack T) : Except String T :=
  if s.empty then .error "Stack is empty!"
  else
    match s.elements.getLast? with
    | some top => .ok top
    | none => .error "back() of an empty vector"

/-- An operation in a history of calls on one stack. -/
inductive StackOp (T : Type) where
  | push (element : T)
  | pop

/-- Effect of one call on the stack; a `pop` that throws is caught by the
caller and the stack is used further. -/
def Stack.apply {T : Type} (s : Stack T) : StackOp T → Stack T
  | .push element => s.push element
  | .pop => s.pop.2

/-- The stack reached from a new stack by a history of calls, oldest first. -/
def Stack.run {T : Type} (history : List (StackOp T)) : Stack T :=
  history.foldl Stack.apply Stack.new

/-- The most recently pushed element that has not yet been popped, in the words
of the specification, read off a history given most recent call first: walking
back in time, every `pop` cancels one earlier `push`, and the first `push` that
is not cancelled is the answer.  With `skip = 0` this is the element itself. -/
def lastUnpopped {T : Type} : List (StackOp T) → Nat → Option T
  | [], _ => none
  | .pop :: earlier, skip => lastUnpopped earlier (skip + 1)
  | .push element :: _, 0 => some element
  | .push _ :: earlier, skip + 1 => lastUnpopped earlier skip

/-- Outcome of the loop `while (!stack.empty()) { std::cout << stack.pop(); }`. -/
inductive DrainResult (T : Type) where
  | done (printed : List T) (pops : Nat) (final : Stack T)
  | raised (message : String)
  | outOfFuel

/-- The loop `while (!intStack.empty()) { std::cout << intStack.pop() << " "; }`
(lines 205-207 and 216-218); `printed` collects the values written, `pops`
counts the calls of `pop`.  An exception leaves the loop (and `main`). -/
def Stack.drain {T : Type} : Nat → Stack T → List T → Nat → DrainResult T
  | 0, _, _, _ => .outOfFuel
  | fuel + 1, s, printed, pops =>
    if !s.empty then
      match s.pop with
      | (.ok value, s1) => Stack.drain fuel s1 (printed ++ [value]) (pops + 1)
      | (.error message, _) => .raised message
    else .done printed pops s

/-- Pushing the elements of `xs` in order onto a new stack. -/
def Stack.pushAll {T : Type} (xs : List T) : Stack T :=
  xs.foldl Stack.push Stack.new

/-! ## classes_objects.cpp: the class `BankAccount` -/

/-- A line written to the console by a method of `BankAccount`, with the amount
it shows. -/
inductive AccountMessage (α : Type) where
  | deposited (amount : α)
  | invalidDeposit
  | withdrew (amount : α)
  | insufficientOrInvalid
  deriving DecidableEq

/-- The class `BankAccount` (lines 14-18); the `double` balance is modelled by
the parameter `α`. -/
structure BankAccount (α : Type) where
  accountNumber : String
  ownerName : String
  balance : α

/-- The constructor (lines 22-26). -/
def BankAccount.new {α : Type} (accNum name : String) (initialBalance : α) :
    BankAccount α :=
  ⟨accNum, name, initialBalance⟩

/-- The getter `getBalance` (lines 37-39). -/
def BankAccount.getBalance {α : Type} (acct : BankAccount α) : α := acct.balance

/-- The method `deposit` (lines 47-54): the line it prints and the account
after the call. -/
def BankAccount.deposit {α : Type} [LT α] [Zero α] [Add α]
    [∀ a b : α, Decidable (a < b)] (acct : BankAccount α) (amount : α) :
    AccountMessage α × BankAccount α :=
  if amount > 0 then
    (.deposited amount, ⟨acct.accountNumber, acct.ownerName, acct.balance + amount⟩)
  else
    (.invalidDeposit, acct)

/-- The method `withdraw` (lines 56-65): the returned `bool`, the line it
prints and the account after the call. -/
def BankAccount.withdraw {α : Type} [LT α] [LE α] [Zero α] [Sub α]
    [∀ a b : α, Decidable (a < b)] [∀ a b : α, Decidable (a ≤ b)]
    (acct : BankAccount α) (amount : α) :
    Bool × AccountMessage α × BankAccount α :=
  if amount > 0 ∧ amount ≤ acct.balance then
    (true, .withdrew amount, ⟨acct.accountNumber, acct.ownerName, acct.balance - amount⟩)
  else
    (false, .insufficientOrInvalid, acct)

/-- The account of `main` after lines 114-122: opened with 1000, then
`deposit(500.0)` and `withdraw(200.0)`. -/
def accountDemo : BankAccount ℚ :=
  let myAccount : BankAccount ℚ := BankAccount.new "123456" "John Doe" 1000
  let myAccount := (myAccount.deposit 500).2
  let myAccount := (myAccount.withdraw 200).2.2
  myAccount

/-! ## fizzbuzz.cpp: the whole program -/

/-- One item written to `std::cout` by `main` of `fizzbuzz.cpp`: the heading,
an entry (lines 19-33), the separator ", " (line 37) or `std::endl`. -/
inductive Emitted where
  | heading (text : String)
  | entry (text : String)
  | separator
  | endl
  deriving DecidableEq

/-- The characters an item puts on the console. -/
def Emitted.render : Emitted → String
  | .heading text => text
  | .entry text => text
  | .separator => ", "
  | .endl => "\n"

/-- The text of an entry, `none` for the other items. -/
def Emitted.entryText : Emitted → Option String
  | .entry text => some text
  | _ => none

/-- Whether an item is an entry or a separator. -/
def Emitted.isEntryOrSeparator : Emitted → Bool
  | .entry _ => true
  | .separator => true
  | _ => false

/-- The body of the `for` loop (lines 18-43) for the counter value `i`: the
entry, the separator when `i < 100`, a line break when `i % 20 == 0`. -/
def fizzBuzzBody (i : Int) : List Emitted :=
  [Emitted.entry (fizzBuzzEntry i)]
    ++ (if i < 100 then [Emitted.separator] else [])
    ++ (if Int.tmod i 20 = 0 then [Emitted.endl] else [])

/-- The loop `for (int i = 1; i <= 100; i++)` (line 17) from counter value `i`,
appending to what was written before; `none` when the fuel runs out. -/
def fizzBuzzLoop : Nat → Int → List Emitted → Option (List Emitted)
  | 0, _, _ => none
  | fuel + 1, i, written =>
    if i ≤ 100 then fizzBuzzLoop fuel (toInt32 (i + 1)) (written ++ fizzBuzzBody i)
    else some written

/-- The function `main` of `fizzbuzz.cpp` (lines 14-49): everything written to
`std::cout`, in order. -/
def fizzBuzzMain : Option (List Emitted) :=
  let written := [Emitted.heading "=== FizzBuzz Solution ===", Emitted.endl, Emitted.endl]
  match fizzBuzzLoop 101 1 written with
  | some written => some (written ++ [Emitted.endl])
  | none => none

/-! ## functions.cpp -/

/-- The recursive function `factorial` (lines 101-106) on `int`; the product
and the argument `n - 1` are `int` values. -/
def factorial (n : Int) : Int :=
  if _h : n ≤ 1 then 1
  else toInt32 (n * factorial (toInt32 (n - 1)))
termination_by n.toNat
decreasing_by
  unfold toInt32
  omega

/-- The `int` variables of a caller, by name. -/
abbrev Vars := String → Int

/-- Assignment to the variable `name`. -/
def Vars.set (vars : Vars) (name : String) (value : Int) : Vars :=
  fun v => if v = name then value else vars v

/-- The function `swapByValue` (lines 109-114): `a` and `b` are copies owned by
the callee.  Returned are the final values of the copies and the variables of
the caller. -/
def swapByValue (caller : Vars) (a b : Int) : (Int × Int) × Vars :=
  let temp := a
  let a := b
  let b := temp
  ((a, b), caller)

/-- The function `swapByReference` (lines 117-122): `a` and `b` name variables
of the caller, read and assigned through the references. -/
def swapByReference (caller : Vars) (a b : String) : Vars :=
  let temp := caller a
  let caller := caller.set a (caller b)
  let caller := caller.set b temp
  caller

/-- Lines 57-64 of `main` in `functions.cpp`: the variables after
`swapByValue(x, y)` and after the following `swapByReference(x, y)`. -/
def swapDemo : Vars × Vars :=
  let vars : Vars := fun _ => 0
  let vars := (vars.set "x" 10).set "y" 20
  let afterValue := (swapByValue vars (vars "x") (vars "y")).2
  let afterReference := swapByReference afterValue "x" "y"
  (afterValue, afterReference)

/-! ## templates.cpp: calls on a stack and their effect on the object -/

/-- A call of one of the methods `push`, `pop`, `top` on a stack. -/
inductive StackCall (T : Type) where
  | push (element : T)
  | pop
  | top

/-- The stack object after a call.  `push` and `pop` change `elements` as
their bodies say (a `pop` that throws has changed nothing); `top` is a `const`
method: it reads `elements.back()` and leaves the object as it was. -/
def Stack.call {T : Type} (s : Stack T) : StackCall T → Stack T
  | .push element => s.push element
  | .pop => s.pop.2
  | .top =>
    match s.top with
    | .ok _ => s
    | .error _ => s

/-! ## lambda_expressions.cpp -/

/-- The lambda `applyOperation` (lines 116-123): `result` starts empty and
receives `operation(n)` by `push_back` for every `n` of `vec`, in order. -/
def applyOperation (vec : List Int) (operation : Int → Int) : List Int :=
  vec.foldl (fun result n => result ++ [operation n]) []

/-- Lines 125-134 of `main` in `lambda_expressions.cpp`: the vectors `doubled`
and `plusTen`, computed from `data` with the lambdas `n * 2` and `n + 10` on
`int`. -/
def lambdaDemo : List Int × List Int :=
  let data : List Int := [1, 2, 3, 4, 5]
  let doubled := applyOperation data (fun n => toInt32 (n * 2))
  let plusTen := applyOperation data (fun n => toInt32 (n + 10))
  (doubled, plusTen)

/-! ## The type `double` (IEEE 754 binary64) -/

/-- A value of type `double`: a finite number, an infinity or NaN.  The sign of
a zero is not recorded. -/
inductive Double where
  | finite (value : ℚ)
  | posInf
  | negInf
  | nan
  deriving DecidableEq

/-- The finite values of binary64: `m * 2^e` with a significand of at most 53
bits and an exponent between -1074 and 971. -/
def IsBinary64 (q : ℚ) : Prop :=
  ∃ m e : Int, |m| < 2 ^ 53 ∧ -1074 ≤ e ∧ e ≤ 971 ∧ q = m * (2 : ℚ) ^ e

/-- Rounding of a rational to the nearest integer, a tie going to the even
one. -/
def roundHalfEven (q : ℚ) : Int :=
  if q - ⌊q⌋ < 1 / 2 then ⌊q⌋
  else if 1 / 2 < q - ⌊q⌋ then ⌊q⌋ + 1
  else if ⌊q⌋ % 2 = 0 then ⌊q⌋
  else ⌊q⌋ + 1

/-- The exponent of the unit in the last place of the binary64 values next to
`q`: 52 below the exponent of `q`, and -1074 in the subnormal range. -/
def ulpExponent (q : ℚ) : Int := max (Int.log 2 |q| - 52) (-1074)

/-- The binary64 result for the exact value `q` in the default rounding mode
(round to nearest, ties to even): the nearest multiple of the unit in the last
place, and an infinity when that is 2^1024 or more in magnitude. -/
def Double.round (q : ℚ) : Double :=
  let r : ℚ := roundHalfEven (q / (2 : ℚ) ^ ulpExponent q) * (2 : ℚ) ^ ulpExponent q
  if (2 : ℚ) ^ (1024 : Nat) ≤ |r| then (if 0 < q then .posInf else .negInf)
  else .finite r

/-- The operator `+` on `double`. -/
def Double.add : Double → Double → Double
  | .finite a, .finite b => Double.round (a + b)
  | .finite _, .posInf => .posInf
  | .finite _, .negInf => .negInf
  | .posInf, .finite _ => .posInf
  | .posInf, .posInf => .posInf
  | .posInf, .negInf => .nan
  | .negInf, .finite _ => .negInf
  | .negInf, .negInf => .negInf
  | .negInf, .posInf => .nan
  | .nan, _ => .nan
  | _, .nan => .nan

/-- The operator `-` on `double`. -/
def Double.sub : Double → Double → Double
  | .finite a, .finite b => Double.round (a - b)
  | .finite _, .posInf => .negInf
  | .finite _, .negInf => .posInf
  | .posInf, .finite _ => .posInf
  | .posInf, .negInf => .posInf
  | .posInf, .posInf => .nan
  | .negInf, .finite _ => .negInf
  | .negInf, .posInf => .negInf
  | .negInf, .negInf => .nan
  | .nan, _ => .nan
  | _, .nan => .nan

/-- The operator `<` on `double`; false whenever an operand is NaN. -/
def Double.lt : Double → Double → Bool
  | .finite a, .finite b => decide (a < b)
  | .finite _, .posInf => true
  | .negInf, .finite _ => true
  | .negInf, .posInf => true
  | _, _ => false

/-- The operator `<=` on `double`; false whenever an operand is NaN. -/
def Double.le : Double → Double → Bool
  | .finite a, .finite b => decide (a ≤ b)
  | .finite _, .posInf => true
  | .negInf, .finite _ => true
  | .negInf, .posInf => true
  | .posInf, .posInf => true
  | .negInf, .negInf => true
  | _, _ => false

instance : LT Double := ⟨fun a b => Double.lt a b = true⟩

instance : LE Double := ⟨fun a b => Double.le a b = true⟩

instance (a b : Double) : Decidable (a < b) :=
  inferInstanceAs (Decidable (Double.lt a b = true))

instance (a b : Double) : Decidable (a ≤ b) :=
  inferInstanceAs (Decidable (Double.le a b = true))

instance : Zero Double := ⟨.finite 0⟩

instance : Add Double := ⟨Double.add⟩

instance : Sub Double := ⟨Double.sub⟩

/-- An account whose balance is 2^54. -/
def largeAccount : BankAccount Double :=
  BankAccount.new "123456" "John Doe" (.finite 18014398509481984)

/-- An account whose balance is 2^53. -/
def roundAccount : BankAccount Double :=
  BankAccount.new "123456" "John Doe" (.finite 9007199254740992)

/-! ## functions.cpp: `factorial` on a bounded call stack -/

/-- An upper bound on the number of nested calls that the call stack of the
documented build allows: the default stack of 8 MiB holds at most 524288
activation records of 16 bytes (return address and saved frame pointer), the
least that a call of `factorial` occupies. -/
def stackFrames : Nat := 524288

/-- The function `factorial` (lines 101-106) run on a call stack with room for
`frames` more activation records.  Every call takes one record; `none` when the
stack is exhausted: the run is killed and returns nothing. -/
def factorialOnStack : Nat → Int → Option Int
  | 0, _ => none
  | frames + 1, n =>
    if n ≤ 1 then some 1
    else
      match factorialOnStack frames (toInt32 (n - 1)) with
      | some r => some (toInt32 (n * r))
      | none => none

/-! ## Theorems: fizzbuzz.cpp -/

theorem digitChar_isDigit (k : Nat) (h : k < 10) : (Nat.digitChar k).isDigit = true := by
  interval_cases k <;> decide

theorem toDigitsCore_isDigit (f : Nat) : ∀ (n : Nat) (ds : List Char),
    (∀ c ∈ ds, c.isDigit = true) → ∀ c ∈ Nat.toDigitsCore 10 f n ds, c.isDigit = true := by
  induction f with
  | zero => intro n ds h c hc; simpa [Nat.toDigitsCore] using h c hc
  | succ f ih =>
    intro n ds h c hc
    have hd : (Nat.digitChar (n % 10)).isDigit = true :=
      digitChar_isDigit _ (Nat.mod_lt _ (by decide))
    have hcons : ∀ c ∈ Nat.digitChar (n % 10) :: ds, c.isDigit = true := by
      intro c hc
      rcases List.mem_cons.mp hc with h1 | h1
      · rw [h1]; exact hd
      · exact h c h1
    simp only [Nat.toDigitsCore] at hc
    split at hc
    · exact hcons c hc
    · exact ih _ _ hcons c hc

/-- Every character of the decimal string of a natural number is a digit. -/
theorem toString_nat_isDigit (n : Nat) : ∀ c ∈ (toString n).data, c.isDigit = true := by
  intro c hc
  have e : toString n = (Nat.toDigits 10 n).asString := rfl
  rw [e] at hc
  exact toDigitsCore_isDigit _ _ [] (by simp) c hc

theorem toString_nat_ne_of_letter (n : Nat) (w : String) (c : Char) (hc : c ∈ w.data)
    (hd : c.isDigit = false) : toString n ≠ w := by
  intro h
  have hdig := toString_nat_isDigit n c (h ▸ hc)
  rw [hd] at hdig
  exact Bool.noConfusion hdig

theorem toString_natCast (n : Nat) : toString (n : Int) = toString n := rfl

/-- C1: for every non-negative integer `n` the entry written by the loop body
is "FizzBuzz" iff 15 divides `n`, "Fizz" iff 3 divides `n` and 5 does not,
"Buzz" iff 5 divides `n` and 3 does not, and is the decimal string of `n`
exactly in the remaining case. -/
theorem fizzBuzzEntry_spec (n : Nat) :
    (fizzBuzzEntry n = "FizzBuzz" ↔ 15 ∣ n) ∧
    (fizzBuzzEntry n = "Fizz" ↔ 3 ∣ n ∧ ¬ 5 ∣ n) ∧
    (fizzBuzzEntry n = "Buzz" ↔ 5 ∣ n ∧ ¬ 3 ∣ n) ∧
    (fizzBuzzEntry n = toString n ↔ ¬ 3 ∣ n ∧ ¬ 5 ∣ n) := by
  have e3 : Int.tmod (n : Int) 3 = 0 ↔ 3 ∣ n := by
    rw [Int.tmod_eq_emod (by omega) (by omega)]; omega
  have e5 : Int.tmod (n : Int) 5 = 0 ↔ 5 ∣ n := by
    rw [Int.tmod_eq_emod (by omega) (by omega)]; omega
  have e15 : 15 ∣ n ↔ 3 ∣ n ∧ 5 ∣ n := by omega
  have nFB : toString n ≠ "FizzBuzz" :=
    toString_nat_ne_of_letter n _ 'F' (by decide) (by decide)
  have nF : toString n ≠ "Fizz" :=
    toString_nat_ne_of_letter n _ 'F' (by decide) (by decide)
  have nB : toString n ≠ "Buzz" :=
    toString_nat_ne_of_letter n _ 'B' (by decide) (by decide)
  unfold fizzBuzzEntry
  rw [toString_natCast]
  by_cases h3 : 3 ∣ n <;> by_cases h5 : 5 ∣ n <;>
    simp [e3, e5, e15, h3, h5, nFB, nF, nB, nFB.symm, nF.symm, nB.symm]


/-! ## Theorems: palindrome.cpp -/

theorem toInt32_of_range (z : Int) (h1 : -2147483648 ≤ z) (h2 : z < 2147483648) :
    toInt32 z = z := by
  unfold toInt32; omega

theorem cleaned_foldl (str acc : List Char) :
    str.foldl (fun acc c => if c.isAlphanum then acc ++ [c.toLower] else acc) acc
      = acc ++ (str.filter Char.isAlphanum).map Char.toLower := by
  induction str generalizing acc with
  | nil => simp
  | cons c cs ih =>
    rw [List.foldl_cons, ih]
    by_cases h : c.isAlphanum = true <;> simp [List.filter_cons, h]

/-- The cleaning loop computes the normalized string of the specification. -/
theorem cleaned_eq_normalized (s : String) : cleaned s.data = normalized s := by
  unfold cleaned normalized
  rw [cleaned_foldl]; simp

theorem cleaned_eq (l : List Char) :
    cleaned l = (l.filter Char.isAlphanum).map Char.toLower := by
  unfold cleaned
  rw [cleaned_foldl]; simp

theorem cleaned_length_le (l : List Char) : (cleaned l).length ≤ l.length := by
  rw [cleaned_eq, List.length_map]; exact List.length_filter_le _ _

theorem charAt_natCast (cl : List Char) (k : Nat) : charAt cl (k : Int) = cl[k]? := by
  unfold charAt; simp

/-- Specification of the two-pointer loop started at `left = k`,
`right = length - 1 - k`. -/
theorem twoPointerLoop_spec (cl : List Char) (hn : cl.length ≤ 2147483648) :
    ∀ (fuel k : Nat), cl.length < fuel + 2 * k → 1 ≤ fuel →
      ∃ b, twoPointerLoop cl fuel (k : Int) ((cl.length : Int) - 1 - k) = .ok b ∧
        (b = true ↔ ∀ i : Nat, k ≤ i → 2 * i + 1 < cl.length →
          cl[i]? = cl[cl.length - 1 - i]?) := by
  intro fuel
  induction fuel with
  | zero => intro k _ h; omega
  | succ fuel ih =>
    intro k hf _
    unfold twoPointerLoop
    by_cases hlt : (k : Int) < (cl.length : Int) - 1 - k
    · rw [if_pos hlt]
      have hk1 : k < cl.length := by omega
      have hk2 : cl.length - 1 - k < cl.length := by omega
      have er : ((cl.length : Int) - 1 - k) = ((cl.length - 1 - k : Nat) : Int) := by omega
      rw [er, charAt_natCast, charAt_natCast, List.getElem?_eq_getElem hk1,
        List.getElem?_eq_getElem hk2]
      simp only []
      by_cases hab : cl[k] = cl[cl.length - 1 - k]
      · have e1 : toInt32 ((k : Int) + 1) = ((k + 1 : Nat) : Int) := by
          rw [toInt32_of_range] <;> omega
        have e2 : toInt32 (((cl.length - 1 - k : Nat) : Int) - 1)
            = (cl.length : Int) - 1 - ((k + 1 : Nat) : Int) := by
          rw [toInt32_of_range] <;> omega
        simp only [hab, ne_eq, not_true_eq_false, if_false, e1, e2]
        obtain ⟨b, hb, hiff⟩ := ih (k + 1) (by omega) (by omega)
        refine ⟨b, hb, ?_⟩
        rw [hiff]
        constructor
        · intro h i hi h2
          rcases Nat.eq_or_lt_of_le hi with h3 | h3
          · subst h3
            rw [List.getElem?_eq_getElem hk1, List.getElem?_eq_getElem hk2, hab]
          · exact h i h3 h2
        · intro h i hi h2
          exact h i (by omega) h2
      · refine ⟨false, by simp [hab], ?_⟩
        simp only [Bool.false_eq_true, false_iff, not_forall]
        refine ⟨k, le_refl _, by omega, ?_⟩
        rw [List.getElem?_eq_getElem hk1, List.getElem?_eq_getElem hk2]
        simpa using hab
    · rw [if_neg hlt]
      refine ⟨true, rfl, ?_⟩
      simp only [true_iff]
      intro i hi h2
      omega

theorem palindrome_iff_half (cl : List Char) :
    cl = cl.reverse ↔
      ∀ i : Nat, 2 * i + 1 < cl.length → cl[i]? = cl[cl.length - 1 - i]? := by
  constructor
  · intro h i hi
    have : cl.reverse[i]? = cl[cl.length - 1 - i]? := List.getElem?_reverse (by omega)
    rw [← this, ← h]
  · intro h
    apply List.ext_getElem?
    intro i
    by_cases hi : i < cl.length
    · rw [List.getElem?_reverse hi]
      rcases Nat.lt_trichotomy (2 * i + 1) cl.length with h1 | h1 | h1
      · exact h i h1
      · have : cl.length - 1 - i = i := by omega
        rw [this]
      · have h2 := h (cl.length - 1 - i) (by omega)
        have : cl.length - 1 - (cl.length - 1 - i) = i := by omega
        rw [this] at h2
        exact h2.symm
    · rw [List.getElem?_eq_none (by omega), List.getElem?_eq_none (by simp; omega)]

/-- With a normalized string of at most 2^31 characters the function returns
normally, and returns `true` exactly for palindromes. -/
theorem isPalindrome_eq (s : String) (h : (cleaned s.data).length ≤ 2147483648) :
    isPalindrome s = .ok (decide (cleaned s.data = (cleaned s.data).reverse)) := by
  unfold isPalindrome
  simp only []
  have er : toInt32 (toSizeT (((cleaned s.data).length : Int) - 1))
      = ((cleaned s.data).length : Int) - 1 - ((0 : Nat) : Int) := by
    unfold toInt32 toSizeT; omega
  rw [er]
  obtain ⟨b, hb, hiff⟩ := twoPointerLoop_spec (cleaned s.data) h
    ((cleaned s.data).length + 1) 0 (by omega) (by omega)
  have h0 : ((0 : Nat) : Int) = 0 := rfl
  rw [h0] at hb
  rw [h0, hb]
  congr 1
  rw [Bool.eq_iff_iff, hiff, decide_eq_true_iff, palindrome_iff_half]
  simp


theorem char_cases (P : Char → Prop) (hsmall : ∀ k : Nat, k < 128 → P (Char.ofNat k))
    (hbig : ∀ c : Char, 128 ≤ c.toNat → P c) (c : Char) : P c := by
  by_cases h : c.toNat < 128
  · have := hsmall c.toNat h
    rwa [Char.ofNat_toNat] at this
  · exact hbig c (by omega)

theorem toUpper_big (c : Char) (h : 128 ≤ c.toNat) : c.toUpper = c := by
  unfold Char.toUpper
  simp only []
  rw [if_neg (by omega)]

theorem toLower_big (c : Char) (h : 128 ≤ c.toNat) : c.toLower = c := by
  unfold Char.toLower
  simp only []
  rw [if_neg (by omega)]

set_option maxRecDepth 100000 in
theorem case_small : ∀ k : Nat, k < 128 →
    ((Char.ofNat k).toUpper.isAlphanum = (Char.ofNat k).isAlphanum ∧
     (Char.ofNat k).toUpper.toLower = (Char.ofNat k).toLower ∧
     (Char.ofNat k).toLower.isAlphanum = (Char.ofNat k).isAlphanum ∧
     (Char.ofNat k).toLower.toLower = (Char.ofNat k).toLower) := by
  decide

theorem case_facts (c : Char) :
    c.toUpper.isAlphanum = c.isAlphanum ∧ c.toUpper.toLower = c.toLower ∧
    c.toLower.isAlphanum = c.isAlphanum ∧ c.toLower.toLower = c.toLower := by
  refine char_cases (fun c => c.toUpper.isAlphanum = c.isAlphanum ∧
    c.toUpper.toLower = c.toLower ∧ c.toLower.isAlphanum = c.isAlphanum ∧
    c.toLower.toLower = c.toLower) case_small ?_ c
  intro c h
  simp only [toUpper_big c h, toLower_big c h, and_self]

theorem caseVariant_facts {a b : Char} (h : caseVariant a b) :
    b.isAlphanum = a.isAlphanum ∧ b.toLower = a.toLower := by
  obtain ⟨h1, h2, h3, h4⟩ := case_facts a
  rcases h with h | h | h <;> subst h
  · exact ⟨rfl, rfl⟩
  · exact ⟨h1, h2⟩
  · exact ⟨h3, h4⟩

theorem cleaned_caseVariant {s t : List Char} (h : List.Forall₂ caseVariant s t) :
    cleaned t = cleaned s := by
  rw [cleaned_eq, cleaned_eq]
  induction h with
  | nil => rfl
  | cons hab _ ih =>
    obtain ⟨e1, e2⟩ := caseVariant_facts hab
    simp only [List.filter_cons, e1]
    split
    · simp only [List.map_cons, e2, ih]
    · exact ih

theorem cleaned_punctEdit {s t : List Char} (h : PunctEdit s t) : cleaned t = cleaned s := by
  rw [cleaned_eq, cleaned_eq]
  induction h with
  | nil => rfl
  | keep c _ ih =>
    simp only [List.filter_cons]
    split
    · simp only [List.map_cons, ih]
    · exact ih
  | insert c hc _ ih => simp only [List.filter_cons, hc, Bool.false_eq_true, if_false, ih]
  | delete c hc _ ih => simp only [List.filter_cons, hc, Bool.false_eq_true, if_false, ih]

theorem isPalindrome_congr (s t : String) (h : cleaned t.data = cleaned s.data) :
    isPalindrome t = isPalindrome s := by
  unfold isPalindrome
  simp only [h]


theorem cleaned_replicate_append (n : Nat) (c d : Char)
    (hc : c.isAlphanum = true) (hd : d.isAlphanum = true)
    (hcl : c.toLower = c) (hdl : d.toLower = d) :
    cleaned (List.replicate n c ++ [d]) = List.replicate n c ++ [d] := by
  rw [cleaned_eq]
  induction n with
  | zero => simp [hd, hdl]
  | succ n ih =>
    rw [List.replicate_succ, List.cons_append, List.filter_cons, if_pos hc, List.map_cons,
      hcl, ih]

theorem replicate_append_ne_reverse (n : Nat) (c d : Char) (hn : 1 ≤ n) (hcd : c ≠ d) :
    List.replicate n c ++ [d] ≠ (List.replicate n c ++ [d]).reverse := by
  obtain ⟨m, rfl⟩ : ∃ m, n = m + 1 := ⟨n - 1, by omega⟩
  rw [List.reverse_append, List.replicate_succ]
  intro h
  have h2 := congrArg List.head? h
  simp only [List.cons_append, List.head?_cons, List.reverse_cons, List.reverse_nil,
    List.nil_append, Option.some.injEq] at h2
  exact hcd h2

theorem isPalindrome_of_length (s : String) (h : (cleaned s.data).length = 2147483649) :
    isPalindrome s = .ok true := by
  unfold isPalindrome
  simp only []
  have er : toInt32 (toSizeT (((cleaned s.data).length : Int) - 1)) = -2147483648 := by
    rw [h]; unfold toInt32 toSizeT; omega
  rw [er]
  unfold twoPointerLoop
  rw [if_neg (by decide)]

/-- C2 (failing input): on the string of 2^31 letters `a` followed by `b`, the
conversion of `cleaned.length() - 1` to `int` gives `INT_MIN`, the loop is
skipped and `isPalindrome` returns `true`, although the normalized string is
not equal to its own reverse. -/
theorem isPalindrome_longNonPalindrome :
    isPalindrome longNonPalindrome = .ok true ∧
      normalized longNonPalindrome ≠ (normalized longNonPalindrome).reverse := by
  have hc : cleaned longNonPalindrome.data = List.replicate 2147483648 'a' ++ ['b'] :=
    cleaned_replicate_append 2147483648 'a' 'b' (by decide) (by decide) (by decide) (by decide)
  constructor
  · apply isPalindrome_of_length
    rw [hc, List.length_append, List.length_replicate, List.length_singleton]
  · rw [← cleaned_eq_normalized, hc]
    exact replicate_append_ne_reverse 2147483648 'a' 'b' (by decide) (by decide)

/-- C7 (failing input): on the string of 2^31 digits `0` followed by `1`, the
two-pointer `isPalindrome` returns `true` while `isPalindromeReverse` returns
`false`. -/
theorem isPalindrome_ne_reverse_longDigits :
    isPalindrome longDigits = .ok true ∧ isPalindromeReverse longDigits = false := by
  have hc : cleaned longDigits.data = List.replicate 2147483648 '0' ++ ['1'] :=
    cleaned_replicate_append 2147483648 '0' '1' (by decide) (by decide) (by decide) (by decide)
  constructor
  · apply isPalindrome_of_length
    rw [hc, List.length_append, List.length_replicate, List.length_singleton]
  · unfold isPalindromeReverse
    simp only []
    rw [hc, beq_eq_false_iff_ne]
    exact replicate_append_ne_reverse 2147483648 '0' '1' (by decide) (by decide)


/-- Correctness of the two-pointer scan below the `int` limit: for every string
whose normalized string has at most 2^31 characters, `isPalindrome` returns a
boolean, and that boolean is `true` if and only if the normalized string equals
its own reverse. -/
theorem isPalindrome_iff_normalized_reverse (s : String)
    (h : (normalized s).length ≤ 2147483648) :
    ∃ b, isPalindrome s = .ok b ∧
      (b = true ↔ normalized s = (normalized s).reverse) := by
  rw [← cleaned_eq_normalized] at h ⊢
  exact ⟨_, isPalindrome_eq s h, decide_eq_true_iff⟩

theorem isPalindrome_iff_normalized_reverse_witness :
    (normalized "No lemon, no melon").length ≤ 2147483648 ∧
      ∃ b, isPalindrome "No lemon, no melon" = .ok b ∧
        (b = true ↔
          normalized "No lemon, no melon" = (normalized "No lemon, no melon").reverse) :=
  ⟨by decide, isPalindrome_iff_normalized_reverse "No lemon, no melon" (by decide)⟩

/-- C3: `isPalindrome` is case-insensitive: if `t` is obtained from `s` by
changing the case of any of its letters, then `isPalindrome t = isPalindrome s`
(for every string, in particular every ASCII string). -/
theorem isPalindrome_case_insensitive (s t : String)
    (h : List.Forall₂ caseVariant s.data t.data) :
    isPalindrome t = isPalindrome s :=
  isPalindrome_congr s t (cleaned_caseVariant h)

theorem isPalindrome_case_insensitive_witness :
    List.Forall₂ caseVariant "Ab".data "aB".data ∧
      isPalindrome "aB" = isPalindrome "Ab" :=
  ⟨.cons (.inr (.inr rfl)) (.cons (.inr (.inl rfl)) .nil),
    isPalindrome_case_insensitive "Ab" "aB"
      (.cons (.inr (.inr rfl)) (.cons (.inr (.inl rfl)) .nil))⟩

/-- C4: `isPalindrome` ignores non-alphanumeric characters: if `t` is obtained
from `s` by inserting or deleting any number of non-alphanumeric characters at
any positions, then `isPalindrome t = isPalindrome s`. -/
theorem isPalindrome_ignores_non_alnum (s t : String)
    (h : PunctEdit s.data t.data) :
    isPalindrome t = isPalindrome s :=
  isPalindrome_congr s t (cleaned_punctEdit h)

theorem isPalindrome_ignores_non_alnum_witness :
    PunctEdit "a,b".data "a b!".data ∧ isPalindrome "a b!" = isPalindrome "a,b" :=
  ⟨.keep 'a' (.delete ',' rfl (.insert ' ' rfl (.keep 'b' (.insert '!' rfl .nil)))),
    isPalindrome_ignores_non_alnum "a,b" "a b!"
      (.keep 'a' (.delete ',' rfl (.insert ' ' rfl (.keep 'b' (.insert '!' rfl .nil)))))⟩

/-- C5: on the test words of the demo, `isPalindrome` returns `true` for
"radar", "level", "racecar", "A man a plan a canal Panama" and
"Was it a car or a cat I saw", and `false` for "hello" and "world". -/
theorem isPalindrome_testWords :
    isPalindrome "radar" = .ok true ∧
    isPalindrome "hello" = .ok false ∧
    isPalindrome "level" = .ok true ∧
    isPalindrome "world" = .ok false ∧
    isPalindrome "racecar" = .ok true ∧
    isPalindrome "A man a plan a canal Panama" = .ok true ∧
    isPalindrome "Was it a car or a cat I saw" = .ok true :=
  ⟨rfl, rfl, rfl, rfl, rfl, rfl, rfl⟩

theorem eq_reverse_of_length_le_one (l : List Char) (h : l.length ≤ 1) : l = l.reverse := by
  match l, h with
  | [], _ => rfl
  | [_], _ => rfl
  | _ :: _ :: _, h2 => simp at h2

/-- C6: for every input string whose length fits in an `int`, the two-pointer
scan finishes within its fuel, never reads outside the normalized string (the
result is a boolean, not a fault), and the result is `true` whenever the
normalized string has length 0 or 1. -/
theorem isPalindrome_no_failure (s : String) (h : s.length < 2147483648) :
    (∃ b, isPalindrome s = .ok b) ∧
      ((normalized s).length ≤ 1 → isPalindrome s = .ok true) := by
  have hl : (cleaned s.data).length ≤ 2147483648 := by
    have h1 := cleaned_length_le s.data
    have h2 : s.data.length = s.length := rfl
    omega
  have he := isPalindrome_eq s hl
  refine ⟨⟨_, he⟩, ?_⟩
  intro h1
  rw [he]
  rw [← cleaned_eq_normalized] at h1
  congr 1
  rw [decide_eq_true_iff]
  exact eq_reverse_of_length_le_one _ h1

theorem isPalindrome_no_failure_witness :
    ", !?".length < 2147483648 ∧ (normalized ", !?").length ≤ 1 ∧
      isPalindrome ", !?" = .ok true :=
  ⟨by decide, by decide, (isPalindrome_no_failure ", !?" (by decide)).2 (by decide)⟩

/-- Agreement of the two implementations below the `int` limit: for every
string whose normalized string has at most 2^31 characters, the two-pointer
`isPalindrome` returns the same boolean as `isPalindromeReverse`. -/
theorem isPalindrome_eq_isPalindromeReverse (s : String)
    (h : (normalized s).length ≤ 2147483648) :
    isPalindrome s = .ok (isPalindromeReverse s) := by
  rw [← cleaned_eq_normalized] at h
  rw [isPalindrome_eq s h]
  unfold isPalindromeReverse
  simp only []
  congr 1
  rw [Bool.eq_iff_iff]
  simp

theorem isPalindrome_eq_isPalindromeReverse_witness :
    (normalized "Was it a car or a cat I saw").length ≤ 2147483648 ∧
      isPalindrome "Was it a car or a cat I saw"
        = .ok (isPalindromeReverse "Was it a car or a cat I saw") :=
  ⟨by decide, isPalindrome_eq_isPalindromeReverse "Was it a car or a cat I saw" (by decide)⟩

/-! ## Theorems: calculator.cpp -/

/-- C8: `divide` throws exactly when `b == 0`, and then with the message
"Division by zero!"; for every other `b` it succeeds and returns `a / b`; in
particular `divide(10, 0)` fails. -/
theorem Calculator.divide_fails_iff {α : Type} [Div α] [Zero α] [BEq α]
    (c : Calculator α) (a b : α) :
    ((∃ e, c.divide a b = .error e) ↔ (b == 0) = true) ∧
    (∀ e, c.divide a b = .error e → e = "Division by zero!") ∧
    ((b == 0) = false → ∃ c', c.divide a b = .ok (a / b, c')) ∧
    (∀ c0 : Calculator ℚ, c0.divide 10 0 = .error "Division by zero!") := by
  refine ⟨?_, ?_, ?_, ?_⟩
  · unfold Calculator.divide
    by_cases h : (b == 0) = true
    · simp [h]
    · simp [h]
  · intro e
    unfold Calculator.divide
    by_cases h : (b == 0) = true
    · simp only [h, if_true]
      intro he
      injection he with he
      exact he.symm
    · simp [h]
  · intro h
    unfold Calculator.divide
    rw [h]
    exact ⟨_, rfl⟩
  · intro c0
    unfold Calculator.divide
    simp

theorem Calculator.divide_fails_iff_witness :
    (((4 : ℚ) == 0) = false) ∧
      ∃ c', (Calculator.new : Calculator ℚ).divide 100 4 = .ok (100 / 4, c') :=
  ⟨by decide,
    (Calculator.divide_fails_iff (Calculator.new : Calculator ℚ) 100 4).2.2.1 (by decide)⟩

/-- C9 (counterexample): with the operation count at `INT_MAX` a successful
`add` leaves the count at `INT_MIN`, not one greater than before. -/
theorem Calculator.add_saturated_operationCount :
    (saturatedCalculator.add 1 1).2.operationCount = -2147483648 ∧
      (saturatedCalculator.add 1 1).2.operationCount
        ≠ saturatedCalculator.operationCount + 1 := by
  constructor
  · rfl
  · decide

theorem Calculator.countOperation_count {α : Type} (c : Calculator α)
    (h1 : -2147483648 ≤ c.operationCount) (h2 : c.operationCount < 2147483647) :
    c.countOperation.operationCount = c.operationCount + 1 := by
  unfold Calculator.countOperation
  exact toInt32_of_range _ (by omega) (by omega)

/-- C9 (amended): when the operation count is an `int` below `INT_MAX`, every
arithmetic operation that completes without failure (`add`, `subtract`,
`multiply`, `divide`, `power`) leaves `lastResult` equal to the value it
returned and `operationCount` exactly one greater than before the call. -/
theorem Calculator.operation_updates_state {α : Type} [Add α] [Sub α] [Mul α] [Div α]
    [Zero α] [One α] [BEq α] (c : Calculator α) (a b : α) (exponent : Int)
    (h1 : -2147483648 ≤ c.operationCount) (h2 : c.operationCount < 2147483647) :
    ((c.add a b).2.lastResult = (c.add a b).1 ∧
      (c.add a b).2.operationCount = c.operationCount + 1) ∧
    ((c.subtract a b).2.lastResult = (c.subtract a b).1 ∧
      (c.subtract a b).2.operationCount = c.operationCount + 1) ∧
    ((c.multiply a b).2.lastResult = (c.multiply a b).1 ∧
      (c.multiply a b).2.operationCount = c.operationCount + 1) ∧
    (∀ r, c.divide a b = .ok r →
      r.2.lastResult = r.1 ∧ r.2.operationCount = c.operationCount + 1) ∧
    ((c.power a exponent).2.lastResult = (c.power a exponent).1 ∧
      (c.power a exponent).2.operationCount = c.operationCount + 1) := by
  have hc : ∀ x : α, (Calculator.countOperation ⟨x, c.operationCount⟩).operationCount
      = c.operationCount + 1 :=
    fun x => Calculator.countOperation_count ⟨x, c.operationCount⟩ h1 h2
  refine ⟨⟨rfl, hc _⟩, ⟨rfl, hc _⟩, ⟨rfl, hc _⟩, ?_, ⟨rfl, hc _⟩⟩
  intro r hr
  unfold Calculator.divide at hr
  by_cases h : (b == 0) = true
  · simp [h] at hr
  · simp only [h, if_false] at hr
    injection hr with hr
    subst hr
    exact ⟨rfl, hc _⟩

theorem Calculator.operation_updates_state_witness :
    (-2147483648 ≤ (Calculator.new : Calculator ℚ).operationCount ∧
      (Calculator.new : Calculator ℚ).operationCount < 2147483647) ∧
    ((Calculator.new : Calculator ℚ).add 10 5).2.operationCount
      = (Calculator.new : Calculator ℚ).operationCount + 1 :=
  ⟨⟨by decide, by decide⟩,
    (Calculator.operation_updates_state (Calculator.new : Calculator ℚ) 10 5 8
      (by decide) (by decide)).1.2⟩

/-- C10: for all `a` and `b` and every prior state of the calculator, `add`
returns `a + b`, `subtract` returns `a - b` and `multiply` returns `a * b`; in
particular `add(10, 5)` is 15. -/
theorem Calculator.add_subtract_multiply_value {α : Type} [Add α] [Sub α] [Mul α]
    (c : Calculator α) (a b : α) :
    (c.add a b).1 = a + b ∧ (c.subtract a b).1 = a - b ∧ (c.multiply a b).1 = a * b ∧
      (∀ c0 : Calculator ℚ, (c0.add 10 5).1 = 15) := by
  refine ⟨rfl, rfl, rfl, ?_⟩
  intro c0
  show (10 : ℚ) + 5 = 15
  norm_num



/-- The fuel given to the loop of `power` is enough: whenever the exponent is
an `int`, more fuel does not change the result, so the loop has reached
`i >= exponent` when the fuel `exponent - i` is used up. -/
theorem Calculator.powerLoop_fuel {α : Type} [Mul α] (base : α) (exponent : Int)
    (he : exponent < 2147483648) :
    ∀ (fuel : Nat) (i : Int) (r : α), 0 ≤ i → (exponent - i).toNat ≤ fuel →
      Calculator.powerLoop base exponent fuel i r
        = Calculator.powerLoop base exponent (exponent - i).toNat i r := by
  intro fuel
  induction fuel with
  | zero =>
    intro i r _ hf
    have : (exponent - i).toNat = 0 := by omega
    rw [this]
  | succ fuel ih =>
    intro i r hi hf
    by_cases hlt : i < exponent
    · have e1 : toInt32 (i + 1) = i + 1 := toInt32_of_range _ (by omega) (by omega)
      have e2 : (exponent - i).toNat = (exponent - (i + 1)).toNat + 1 := by omega
      rw [e2]
      unfold Calculator.powerLoop
      rw [if_pos hlt, if_pos hlt, e1]
      exact ih (i + 1) (r * base) (by omega) (by omega)
    · have e2 : (exponent - i).toNat = 0 := by omega
      rw [e2]
      unfold Calculator.powerLoop
      rw [if_neg hlt]

theorem productOfCopies_eq_pow {β : Type} [Monoid β] (b : β) (n : Nat) :
    productOfCopies b n = b ^ n := by
  induction n with
  | zero => simp [productOfCopies]
  | succ n ih => rw [productOfCopies, ih, pow_succ]

/-- The loop of `power`, run from counter `i` with `k` iterations left,
multiplies the accumulator `k` times by `base` from the right. -/
theorem Calculator.powerLoop_iterate {α : Type} [Mul α] (base : α) (exponent : Int)
    (he : exponent < 2147483648) :
    ∀ (k : Nat) (i : Int) (r : α), 0 ≤ i → i + k = exponent →
      Calculator.powerLoop base exponent k i r = (fun x => x * base)^[k] r := by
  intro k
  induction k with
  | zero => intro i r _ _; rfl
  | succ k ih =>
    intro i r hi hk
    have hlt : i < exponent := by omega
    have e1 : toInt32 (i + 1) = i + 1 := toInt32_of_range _ (by omega) (by omega)
    unfold Calculator.powerLoop
    rw [if_pos hlt, e1, ih (i + 1) (r * base) (by omega) (by omega)]
    rfl

theorem productOfCopies_iterate {α : Type} [Mul α] [One α] (base : α) (n : Nat) :
    (fun x => x * base)^[n] 1 = productOfCopies base n := by
  induction n with
  | zero => rfl
  | succ n ih => rw [Function.iterate_succ_apply', ih, productOfCopies]

/-- C11: for every base, every `int` exponent `n >= 0` and every prior state,
`power(base, n)` returns the product of `n` copies of `base` (1 for `n = 0`),
which is `base ^ n` in every monoid; in particular `power(2, 8)` is 256. -/
theorem Calculator.power_value {α : Type} [Mul α] [One α] (c : Calculator α) (base : α)
    (n : Nat) (hn : n < 2147483648) :
    (c.power base n).1 = productOfCopies base n ∧
    (c.power base 0).1 = 1 ∧
    (∀ (β : Type) [Monoid β] (c0 : Calculator β) (b : β), (c0.power b n).1 = b ^ n) ∧
    (∀ c0 : Calculator ℚ, (c0.power 2 8).1 = 256) := by
  have key : ∀ (γ : Type) [Mul γ] [One γ] (c0 : Calculator γ) (b : γ),
      (c0.power b n).1 = productOfCopies b n := by
    intro γ _ _ c0 b
    show Calculator.powerLoop b (n : Int) (n : Int).toNat 0 1 = productOfCopies b n
    rw [Int.toNat_natCast,
      Calculator.powerLoop_iterate b n (by omega) n 0 1 (le_refl _) (by omega),
      productOfCopies_iterate]
  refine ⟨key α c base, rfl, ?_, ?_⟩
  · intro β _ c0 b
    rw [key β c0 b, productOfCopies_eq_pow]
  · intro c0
    show Calculator.powerLoop (2 : ℚ) 8 8 0 1 = 256
    norm_num [Calculator.powerLoop, toInt32]

theorem Calculator.power_value_witness :
    (8 < 2147483648) ∧
      ((Calculator.new : Calculator ℚ).power 2 (8 : Nat)).1 = productOfCopies 2 8 :=
  ⟨by decide, (Calculator.power_value (Calculator.new : Calculator ℚ) 2 8 (by decide)).1⟩

/-- C20: in the calculator demo the statistics after `add(10,5)`,
`subtract(20,8)`, `multiply(6,7)`, `divide(100,4)`, `power(2,8)` are last
result 256 and 5 operations; the failure of `divide(10,0)` is caught with the
message "Division by zero!" and the run continues; after `add(5,5)`,
`multiply(result,2)`, `subtract(result,10)` the final statistics are last
result 10 and 8 operations. -/
theorem calculatorMain_report :
    calculatorMain = .ok ⟨⟨256, 5⟩, some "Division by zero!", ⟨10, 8⟩⟩ := by
  unfold calculatorMain
  norm_num [Calculator.new, Calculator.add, Calculator.subtract, Calculator.multiply,
    Calculator.divide, Calculator.power, Calculator.powerLoop, Calculator.countOperation,
    Calculator.returnLastResult, Calculator.displayStats, toInt32]

/-! ## Theorems: templates.cpp -/

theorem Stack.empty_push {T : Type} (s : Stack T) (x : T) : (s.push x).empty = false := by
  cases s with
  | mk l => cases l <;> rfl

theorem Stack.pop_push {T : Type} (s : Stack T) (x : T) : (s.push x).pop = (.ok x, s) := by
  unfold Stack.pop
  rw [Stack.empty_push]
  simp [Stack.push]

theorem Stack.top_push {T : Type} (s : Stack T) (x : T) : (s.push x).top = .ok x := by
  unfold Stack.top
  rw [Stack.empty_push]
  simp [Stack.push]

/-- C12: the stack is last-in-first-out: for every stack `s` and element `x`,
`push(x)` followed by `pop()` returns `x` and leaves the contents of the stack
exactly as they were before the push. -/
theorem Stack.push_then_pop {T : Type} (s : Stack T) (x : T) :
    (s.push x).pop.1 = .ok x ∧ (s.push x).pop.2 = s ∧
      (s.push x).pop.2.elements = s.elements := by
  rw [Stack.pop_push]
  exact ⟨rfl, rfl, rfl⟩

theorem Stack.eq_push_of_not_empty {T : Type} (s : Stack T) (h : s.empty = false) :
    ∃ (s' : Stack T) (x : T), s = s'.push x := by
  cases s with
  | mk l =>
    rcases List.eq_nil_or_concat l with h1 | ⟨L, b, h1⟩
    · subst h1; simp [Stack.empty] at h
    · exact ⟨⟨L⟩, b, by rw [h1, List.concat_eq_append]; rfl⟩

theorem Stack.pop_of_empty {T : Type} (s : Stack T) (h : s.empty = true) :
    s.pop = (.error "Stack is empty!", s) := by
  unfold Stack.pop
  rw [if_pos h]

theorem Stack.top_of_empty {T : Type} (s : Stack T) (h : s.empty = true) :
    s.top = .error "Stack is empty!" := by
  unfold Stack.top
  rw [if_pos h]

/-- Read from the top, the contents of the stack reached by a history are what
`lastUnpopped` finds when walking the history back in time. -/
theorem Stack.run_elements {T : Type} (history : List (StackOp T)) :
    ∀ k : Nat, lastUnpopped history.reverse k = (Stack.run history).elements.reverse[k]? := by
  induction history using List.reverseRecOn with
  | nil => intro k; rfl
  | append_singleton h op ih =>
    intro k
    have hrun : Stack.run (h ++ [op]) = (Stack.run h).apply op := by
      unfold Stack.run
      rw [List.foldl_append]
      rfl
    rw [List.reverse_append, List.reverse_singleton, List.singleton_append, hrun]
    cases op with
    | push x =>
      have he : ((Stack.run h).apply (.push x)).elements.reverse
          = x :: (Stack.run h).elements.reverse := by
        simp [Stack.apply, Stack.push]
      rw [he]
      cases k with
      | zero => simp [lastUnpopped]
      | succ k => simpa [lastUnpopped] using ih k
    | pop =>
      show lastUnpopped h.reverse (k + 1) = _
      rw [ih (k + 1)]
      by_cases hemp : (Stack.run h).empty = true
      · have hnil : (Stack.run h).elements = [] := by
          simpa [Stack.empty] using hemp
        simp [Stack.apply, Stack.pop_of_empty _ hemp, hnil]
      · obtain ⟨s', x, hs⟩ := Stack.eq_push_of_not_empty _ (by simpa using hemp)
        rw [hs]
        show _ = ((s'.push x).pop.2).elements.reverse[k]?
        rw [Stack.pop_push]
        simp [Stack.push]

/-- C13: `pop` and `top` throw, with the message "Stack is empty!", if and only
if the stack is empty; the failing call leaves the empty stack empty; on every
non-empty stack, which is some stack `s'` after `push(x)`, both return `x`; and
on the non-empty stack reached by any history of calls both return the most
recently pushed element that has not yet been popped. -/
theorem Stack.pop_top_spec {T : Type} (s : Stack T) (history : List (StackOp T)) :
    ((∃ e, s.pop.1 = .error e) ↔ s.empty = true) ∧
    ((∃ e, s.top = .error e) ↔ s.empty = true) ∧
    (∀ e, s.pop.1 = .error e ∨ s.top = .error e → e = "Stack is empty!") ∧
    (s.empty = true → s.pop.2 = s ∧ s.pop.2.empty = true) ∧
    (s.empty = false → ∃ (s' : Stack T) (x : T),
      s = s'.push x ∧ s.pop = (.ok x, s') ∧ s.top = .ok x) ∧
    ((Stack.run history).empty = false → ∃ x : T,
      lastUnpopped history.reverse 0 = some x ∧
      (Stack.run history).pop.1 = .ok x ∧ (Stack.run history).top = .ok x) := by
  have hne : ∀ t : Stack T, t.empty = false → ∃ (s' : Stack T) (x : T),
      t = s'.push x ∧ t.pop = (.ok x, s') ∧ t.top = .ok x := by
    intro t ht
    obtain ⟨s', x, hs⟩ := Stack.eq_push_of_not_empty t ht
    exact ⟨s', x, hs, by rw [hs, Stack.pop_push], by rw [hs, Stack.top_push]⟩
  refine ⟨?_, ?_, ?_, ?_, hne s, ?_⟩
  · constructor
    · rintro ⟨e, he⟩
      by_contra hemp
      obtain ⟨s', x, _, hp, _⟩ := hne s (by simpa using hemp)
      rw [hp] at he
      exact Except.noConfusion he
    · intro hemp
      exact ⟨_, by rw [Stack.pop_of_empty s hemp]⟩
  · constructor
    · rintro ⟨e, he⟩
      by_contra hemp
      obtain ⟨s', x, _, _, ht⟩ := hne s (by simpa using hemp)
      rw [ht] at he
      exact Except.noConfusion he
    · intro hemp
      exact ⟨_, Stack.top_of_empty s hemp⟩
  · intro e he
    by_cases hemp : s.empty = true
    · rw [Stack.pop_of_empty s hemp, Stack.top_of_empty s hemp] at he
      rcases he with he | he <;> (injection he with he; exact he.symm)
    · obtain ⟨s', x, _, hp, ht⟩ := hne s (by simpa using hemp)
      rw [hp, ht] at he
      rcases he with he | he <;> exact Except.noConfusion he
  · intro hemp
    rw [Stack.pop_of_empty s hemp]
    exact ⟨rfl, hemp⟩
  · intro hemp
    obtain ⟨s', x, hs, hp, ht⟩ := hne _ hemp
    refine ⟨x, ?_, by rw [hp], ht⟩
    rw [Stack.run_elements, hs]
    simp [Stack.push]

theorem Stack.pop_top_spec_witness :
    (Stack.run [StackOp.push 1, .push 2, .pop, .push 3, .pop]).empty = false ∧
    ∃ x : Nat,
      lastUnpopped [StackOp.push 1, .push 2, .pop, .push 3, .pop].reverse 0 = some x ∧
      (Stack.run [StackOp.push 1, .push 2, .pop, .push 3, .pop]).pop.1 = .ok x ∧
      (Stack.run [StackOp.push 1, .push 2, .pop, .push 3, .pop]).top = .ok x :=
  ⟨rfl, (Stack.pop_top_spec (Stack.new : Stack Nat)
    [StackOp.push 1, .push 2, .pop, .push 3, .pop]).2.2.2.2.2 rfl⟩

theorem Stack.pushAll_elements {T : Type} (xs : List T) : Stack.pushAll xs = ⟨xs⟩ := by
  have h : ∀ (ys : List T) (s : Stack T),
      ys.foldl Stack.push s = ⟨s.elements ++ ys⟩ := by
    intro ys
    induction ys with
    | nil => intro s; simp
    | cons y ys ih => intro s; rw [List.foldl_cons, ih]; simp [Stack.push]
  unfold Stack.pushAll
  rw [h]
  rfl

/-- The popping loop started on a stack with contents `l` and enough fuel pops
every element, from the back of `l` to its front, and stops on the empty
stack. -/
theorem Stack.drain_elements {T : Type} (l : List T) :
    ∀ (fuel : Nat) (printed : List T) (pops : Nat), l.length < fuel →
      Stack.drain fuel ⟨l⟩ printed pops
        = .done (printed ++ l.reverse) (pops + l.length) Stack.new := by
  induction l using List.reverseRecOn with
  | nil =>
    intro fuel printed pops hf
    obtain ⟨f, rfl⟩ : ∃ f, fuel = f + 1 := ⟨fuel - 1, by simp at hf; omega⟩
    simp [Stack.drain, Stack.empty, Stack.new]
  | append_singleton l x ih =>
    intro fuel printed pops hf
    obtain ⟨f, rfl⟩ : ∃ f, fuel = f + 1 := ⟨fuel - 1, by omega⟩
    have hpush : (⟨l ++ [x]⟩ : Stack T) = (⟨l⟩ : Stack T).push x := rfl
    rw [hpush]
    unfold Stack.drain
    rw [Stack.empty_push, Stack.pop_push]
    simp only [Bool.not_false, if_true]
    rw [ih f (printed ++ [x]) (pops + 1) (by simp at hf; omega)]
    simp [Stack.push]
    omega

/-- C14: for every finite list `xs`, pushing its elements in order onto an empty
stack and then popping until `empty()` is true ends without an exception (given
fuel for `length xs + 1` loop tests), performs exactly `length xs` pops, prints
the elements of `xs` in reverse order and leaves the stack empty; pushing 10,
20, 30 pops 30, 20, 10. -/
theorem Stack.pushAll_then_drain {T : Type} (xs : List T) (fuel : Nat)
    (hf : xs.length < fuel) :
    Stack.drain fuel (Stack.pushAll xs) [] 0 = .done xs.reverse xs.length Stack.new ∧
    Stack.drain 4 (((Stack.new.push 10).push 20).push 30) [] 0
      = .done [30, 20, 10] 3 (Stack.new : Stack Int) := by
  constructor
  · rw [Stack.pushAll_elements, Stack.drain_elements xs fuel [] 0 hf]
    simp
  · rfl

theorem Stack.pushAll_then_drain_witness :
    [10, 20, 30].length < 4 ∧
      Stack.drain 4 (Stack.pushAll [(10 : Int), 20, 30]) [] 0
        = .done [(10 : Int), 20, 30].reverse [(10 : Int), 20, 30].length Stack.new :=
  ⟨by decide, (Stack.pushAll_then_drain [(10 : Int), 20, 30] 4 (by decide)).1⟩

/-! ## Theorems: classes_objects.cpp -/

/-- In every arithmetic, `withdraw(amount)` returns `true` if and only if
`amount > 0` and `amount <= balance`; when it returns `true` the new balance is
`balance - amount` in that arithmetic, and when it returns `false` the balance
(indeed the whole account) is unchanged. -/
theorem BankAccount.withdraw_spec {α : Type} [LT α] [LE α] [Zero α] [Sub α]
    [∀ a b : α, Decidable (a < b)] [∀ a b : α, Decidable (a ≤ b)]
    (acct : BankAccount α) (amount : α) :
    ((acct.withdraw amount).1 = true ↔ amount > 0 ∧ amount ≤ acct.balance) ∧
    ((acct.withdraw amount).1 = true →
      (acct.withdraw amount).2.2.balance = acct.balance - amount) ∧
    ((acct.withdraw amount).1 = false →
      (acct.withdraw amount).2.2.balance = acct.balance ∧
      (acct.withdraw amount).2.2 = acct) := by
  unfold BankAccount.withdraw
  by_cases h : amount > 0 ∧ amount ≤ acct.balance
  · rw [if_pos h]
    exact ⟨⟨fun _ => h, fun _ => rfl⟩, fun _ => rfl, fun hf => Bool.noConfusion hf⟩
  · rw [if_neg h]
    exact ⟨⟨fun hf => Bool.noConfusion hf, fun hc => absurd hc h⟩,
      fun hf => Bool.noConfusion hf, fun _ => ⟨rfl, rfl⟩⟩

theorem BankAccount.withdraw_spec_witness :
    ((BankAccount.new "123456" "John Doe" (1500 : ℚ)).withdraw 200).1 = true ∧
    ((BankAccount.new "123456" "John Doe" (1500 : ℚ)).withdraw 200).2.2.balance
      = 1500 - 200 :=
  ⟨by norm_num [BankAccount.withdraw, BankAccount.new],
    (BankAccount.withdraw_spec (BankAccount.new "123456" "John Doe" (1500 : ℚ)) 200).2.1
      (by norm_num [BankAccount.withdraw, BankAccount.new])⟩

/-- In every arithmetic, `deposit(amount)` makes the balance `balance + amount`
when `amount > 0`; when `amount <= 0` (in an arithmetic where that excludes
`amount > 0`) it leaves the account unchanged and reports an invalid deposit;
over exact rationals the demo account has balance 1300. -/
theorem BankAccount.deposit_spec {α : Type} [LT α] [LE α] [Zero α] [Add α]
    [∀ a b : α, Decidable (a < b)] (acct : BankAccount α) (amount : α)
    (hle : amount ≤ 0 → ¬ amount > 0) :
    (amount > 0 → (acct.deposit amount).2.balance = acct.balance + amount) ∧
    (amount ≤ 0 → (acct.deposit amount).2.balance = acct.balance ∧
      (acct.deposit amount).2 = acct ∧ (acct.deposit amount).1 = .invalidDeposit) ∧
    accountDemo.getBalance = 1300 := by
  refine ⟨?_, ?_, ?_⟩
  · intro h
    unfold BankAccount.deposit
    rw [if_pos h]
  · intro h
    unfold BankAccount.deposit
    rw [if_neg (hle h)]
    exact ⟨rfl, rfl, rfl⟩
  · norm_num [accountDemo, BankAccount.getBalance, BankAccount.new, BankAccount.deposit,
      BankAccount.withdraw]

theorem BankAccount.deposit_spec_witness :
    ((-5 : ℚ) ≤ 0 → ¬ (-5 : ℚ) > 0) ∧ (-5 : ℚ) ≤ 0 ∧
      ((BankAccount.new "123456" "John Doe" (1000 : ℚ)).deposit (-5)).2.balance = 1000 :=
  ⟨by norm_num, by norm_num,
    ((BankAccount.deposit_spec (BankAccount.new "123456" "John Doe" (1000 : ℚ)) (-5)
      (by norm_num)).2.1 (by norm_num)).1⟩

/-! ## Theorems: the FizzBuzz program -/

set_option maxRecDepth 1000000 in
/-- C17: the program ends having written exactly one entry for each integer
from 1 to 100, in increasing order, with the separator ", " after every entry
except the 100th: 99 separators in all, and entries and separators alternate,
ending with the last entry. -/
theorem fizzBuzzMain_entries_and_separators :
    ∃ written, fizzBuzzMain = some written ∧
      written.filterMap Emitted.entryText
        = (List.range' 1 100).map (fun n : Nat => fizzBuzzEntry n) ∧
      written.count Emitted.separator = 99 ∧
      written.filter Emitted.isEntryOrSeparator
        = List.intersperse Emitted.separator
            ((List.range' 1 100).map (fun n : Nat => Emitted.entry (fizzBuzzEntry n))) ∧
      (written.filter Emitted.isEntryOrSeparator).getLast?
        = some (Emitted.entry (fizzBuzzEntry 100)) := by
  refine ⟨_, rfl, ?_, ?_, ?_, ?_⟩ <;> decide

/-! ## Theorems: functions.cpp -/

theorem factorial_of_le_one (n : Int) (h : n ≤ 1) : factorial n = 1 := by
  rw [factorial, dif_pos h]

theorem factorial_succ (n : Nat) (h1 : 1 ≤ n) (h2 : n < 2147483647) :
    factorial ((n : Int) + 1) = toInt32 (((n : Int) + 1) * factorial n) := by
  rw [factorial, dif_neg (by omega)]
  have e : toInt32 ((n : Int) + 1 - 1) = n := by
    rw [toInt32_of_range] <;> omega
  rw [e]

theorem factorial_values :
    factorial 0 = 1 ∧ factorial 1 = 1 ∧ factorial 2 = 2 ∧ factorial 3 = 6 ∧
    factorial 4 = 24 ∧ factorial 5 = 120 ∧ factorial 6 = 720 ∧ factorial 7 = 5040 ∧
    factorial 8 = 40320 ∧ factorial 9 = 362880 ∧ factorial 10 = 3628800 ∧
    factorial 11 = 39916800 ∧ factorial 12 = 479001600 := by
  have f0 : factorial 0 = 1 := factorial_of_le_one 0 (by decide)
  have f1 : factorial 1 = 1 := factorial_of_le_one 1 (by decide)
  have step : ∀ (n : Nat) (v : Int), 1 ≤ n → n < 2147483647 → factorial n = v →
      factorial ((n : Int) + 1) = toInt32 (((n : Int) + 1) * v) := by
    intro n v h1 h2 hv
    rw [factorial_succ n h1 h2, hv]
  have f2 : factorial 2 = 2 := step 1 1 (by decide) (by decide) f1
  have f3 : factorial 3 = 6 := step 2 2 (by decide) (by decide) f2
  have f4 : factorial 4 = 24 := step 3 6 (by decide) (by decide) f3
  have f5 : factorial 5 = 120 := step 4 24 (by decide) (by decide) f4
  have f6 : factorial 6 = 720 := step 5 120 (by decide) (by decide) f5
  have f7 : factorial 7 = 5040 := step 6 720 (by decide) (by decide) f6
  have f8 : factorial 8 = 40320 := step 7 5040 (by decide) (by decide) f7
  have f9 : factorial 9 = 362880 := step 8 40320 (by decide) (by decide) f8
  have f10 : factorial 10 = 3628800 := step 9 362880 (by decide) (by decide) f9
  have f11 : factorial 11 = 39916800 := step 10 3628800 (by decide) (by decide) f10
  have f12 : factorial 12 = 479001600 := step 11 39916800 (by decide) (by decide) f11
  exact ⟨f0, f1, f2, f3, f4, f5, f6, f7, f8, f9, f10, f11, f12⟩

/-- Values of `factorial` when the call stack is not a limit: 1 for every
`n <= 1`, negative `n` included; exactly `n!`, which fits in 32 bits, for every
`n` with `0 <= n <= 12`; and 120 for 5. -/
theorem factorial_spec (m : Int) (n : Nat) (hm : m ≤ 1) (hn : n ≤ 12) :
    factorial m = 1 ∧
    factorial n = (n.factorial : Int) ∧ (n.factorial : Int) ≤ 2147483647 ∧
    factorial 5 = 120 := by
  obtain ⟨f0, f1, f2, f3, f4, f5, f6, f7, f8, f9, f10, f11, f12⟩ := factorial_values
  refine ⟨factorial_of_le_one m hm, ?_, ?_, f5⟩
  · interval_cases n <;> simp [Nat.factorial] <;> assumption
  · interval_cases n <;> simp [Nat.factorial]

theorem factorial_spec_witness :
    ((-3 : Int) ≤ 1 ∧ 12 ≤ 12) ∧ factorial (-3) = 1 ∧
      factorial (12 : Nat) = ((12 : Nat).factorial : Int) :=
  ⟨⟨by decide, by decide⟩, (factorial_spec (-3) 12 (by decide) (by decide)).1,
    (factorial_spec (-3) 12 (by decide) (by decide)).2.1⟩

theorem Vars.set_same (vars : Vars) (name : String) (value : Int) :
    (vars.set name value) name = value := by
  simp [Vars.set]

theorem Vars.set_other (vars : Vars) (name v : String) (value : Int) (h : v ≠ name) :
    (vars.set name value) v = vars v := by
  simp [Vars.set, h]

/-- C19: `swapByReference(a, b)` exchanges the two variables of the caller:
afterwards the first holds the old value of the second and the second the old
value of the first, and no other variable changes; `swapByValue` called on the
same variables swaps only its own copies and leaves the variables of the caller
unchanged; in the demo x=10, y=20 stays x=10, y=20 after `swapByValue` and
becomes x=20, y=10 after `swapByReference`. -/
theorem swapByReference_exchanges (caller : Vars) (a b : String) :
    (swapByReference caller a b) a = caller b ∧
    (swapByReference caller a b) b = caller a ∧
    (∀ v, v ≠ a → v ≠ b → (swapByReference caller a b) v = caller v) ∧
    (swapByValue caller (caller a) (caller b)).2 = caller ∧
    (swapByValue caller (caller a) (caller b)).1 = (caller b, caller a) ∧
    (swapDemo.1 "x" = 10 ∧ swapDemo.1 "y" = 20) ∧
    (swapDemo.2 "x" = 20 ∧ swapDemo.2 "y" = 10) := by
  refine ⟨?_, ?_, ?_, rfl, rfl, ⟨by decide, by decide⟩, ⟨by decide, by decide⟩⟩
  · unfold swapByReference
    by_cases h : a = b
    · subst h; rw [Vars.set_same]
    · rw [Vars.set_other _ _ _ _ h, Vars.set_same]
  · unfold swapByReference
    rw [Vars.set_same]
  · intro v ha hb
    unfold swapByReference
    rw [Vars.set_other _ _ _ _ hb, Vars.set_other _ _ _ _ ha]

/-! ## Theorems: size of the stack -/

theorem Stack.size_push {T : Type} (s : Stack T) (x : T) : (s.push x).size = s.size + 1 := by
  simp [Stack.push, Stack.size]

theorem Stack.empty_iff_size {T : Type} (s : Stack T) : s.empty = true ↔ s.size = 0 := by
  cases s with
  | mk l => cases l <;> simp [Stack.empty, Stack.size]

/-- C21: a new stack has size 0; `push` increases `size()` by exactly 1; a
successful `pop` decreases `size()` by exactly 1 (and the size was at least 1);
`top()` does not change `size()`; `empty()` is true if and only if
`size() == 0`; in the demo the size is 3 after pushing 10, 20, 30. -/
theorem Stack.size_bookkeeping {T : Type} (s : Stack T) (x : T) :
    (Stack.new : Stack T).size = 0 ∧
    (s.call (.push x)).size = s.size + 1 ∧
    (∀ y, s.pop.1 = .ok y →
      1 ≤ s.size ∧ (s.call .pop).size = s.size - 1 ∧ (s.call .pop).size + 1 = s.size) ∧
    (s.call .top).size = s.size ∧
    (s.empty = true ↔ s.size = 0) ∧
    ((((Stack.new : Stack Int).call (.push 10)).call (.push 20)).call (.push 30)).size
      = 3 := by
  refine ⟨rfl, Stack.size_push s x, ?_, ?_, Stack.empty_iff_size s, rfl⟩
  · intro y hy
    by_cases hemp : s.empty = true
    · rw [Stack.pop_of_empty s hemp] at hy
      exact Except.noConfusion hy
    · obtain ⟨s', z, hs⟩ := Stack.eq_push_of_not_empty s (by simpa using hemp)
      have hc : s.call .pop = s' := by
        show s.pop.2 = s'
        rw [hs, Stack.pop_push]
      rw [hc, hs, Stack.size_push]
      omega
  · show (match s.top with
      | .ok _ => s
      | .error _ => s).size = s.size
    cases s.top <;> rfl

theorem Stack.size_bookkeeping_witness :
    ((Stack.new : Stack Int).push 10).pop.1 = .ok 10 ∧
      (((Stack.new : Stack Int).push 10).call .pop).size + 1
        = ((Stack.new : Stack Int).push 10).size :=
  ⟨rfl, ((Stack.size_bookkeeping ((Stack.new : Stack Int).push 10) 0).2.2.1 10 rfl).2.2⟩

/-! ## Theorems: lambda_expressions.cpp -/

theorem applyOperation_foldl (vec acc : List Int) (operation : Int → Int) :
    vec.foldl (fun result n => result ++ [operation n]) acc
      = acc ++ vec.map operation := by
  induction vec generalizing acc with
  | nil => simp
  | cons n ns ih => rw [List.foldl_cons, ih]; simp

theorem applyOperation_eq_map (vec : List Int) (operation : Int → Int) :
    applyOperation vec operation = vec.map operation := by
  unfold applyOperation
  rw [applyOperation_foldl]
  rfl

/-- C22: `applyOperation` is a map: for every vector `v` and every function
`op`, the result has the same length as `v`, its `i`-th element is `op(v[i])`
for every valid index `i` (and there is none at an invalid index), in the
original order; in the demo `{1,2,3,4,5}` gives `{2,4,6,8,10}` with `n * 2`
and `{11,12,13,14,15}` with `n + 10`. -/
theorem applyOperation_is_map (v : List Int) (op : Int → Int) :
    (applyOperation v op).length = v.length ∧
    (∀ i : Nat, (applyOperation v op)[i]? = (v[i]?).map op) ∧
    applyOperation v op = v.map op ∧
    lambdaDemo = ([2, 4, 6, 8, 10], [11, 12, 13, 14, 15]) := by
  refine ⟨?_, ?_, applyOperation_eq_map v op, by decide⟩
  · rw [applyOperation_eq_map, List.length_map]
  · intro i
    rw [applyOperation_eq_map, List.getElem?_map]

/-! ## Theorems: rounding to binary64 -/

theorem roundHalfEven_intCast (k : Int) : roundHalfEven (k : ℚ) = k := by
  unfold roundHalfEven
  simp

theorem cast_abs_lt (m : Int) (hm : |m| < 2 ^ 53) : |(m : ℚ)| < (2 : ℚ) ^ (53 : Nat) := by
  have h : ((|m| : Int) : ℚ) < ((2 ^ 53 : Int) : ℚ) := Int.cast_lt.mpr hm
  rw [Int.cast_abs] at h
  norm_num at h ⊢
  exact h

theorem ulpExponent_le (m e : Int) (hm : |m| < 2 ^ 53) (he : -1074 ≤ e) (h0 : m ≠ 0) :
    ulpExponent (m * (2 : ℚ) ^ e) ≤ e := by
  unfold ulpExponent
  apply max_le _ he
  have hpos : (0 : ℚ) < |(m : ℚ) * (2 : ℚ) ^ e| := by
    apply abs_pos.mpr
    apply mul_ne_zero
    · exact_mod_cast h0
    · exact zpow_ne_zero _ (by norm_num)
  have hlt : |(m : ℚ) * (2 : ℚ) ^ e| < ((2 : Nat) : ℚ) ^ (53 + e) := by
    rw [abs_mul, abs_of_pos (zpow_pos (by norm_num : (0 : ℚ) < 2) e), zpow_add₀ (by norm_num)]
    apply mul_lt_mul_of_pos_right _ (zpow_pos (by norm_num) e)
    have := cast_abs_lt m hm
    norm_num at this ⊢
    exact this
  have := (Int.lt_zpow_iff_log_lt (by norm_num : 1 < 2) hpos).mp hlt
  omega

theorem Double.round_zero : Double.round 0 = .finite 0 := by
  unfold Double.round roundHalfEven
  simp

theorem Double.round_of_isBinary64 (q : ℚ) (h : IsBinary64 q) : Double.round q = .finite q := by
  obtain ⟨m, e, hm, he1, he2, rfl⟩ := h
  by_cases h0 : m = 0
  · subst h0
    simp only [Int.cast_zero, zero_mul]
    exact Double.round_zero
  have hle := ulpExponent_le m e hm he1 h0
  set u := ulpExponent (m * (2 : ℚ) ^ e) with hu
  obtain ⟨d, hd⟩ : ∃ d : Nat, e = u + d := ⟨(e - u).toNat, by omega⟩
  have hsplit : (2 : ℚ) ^ e = (2 : ℚ) ^ u * (2 : ℚ) ^ d := by
    rw [hd, zpow_add₀ (by norm_num), zpow_natCast]
  have hupos : (2 : ℚ) ^ u ≠ 0 := zpow_ne_zero _ (by norm_num)
  have hdiv : (m : ℚ) * (2 : ℚ) ^ e / (2 : ℚ) ^ u = ((m * 2 ^ d : Int) : ℚ) := by
    rw [hsplit]
    push_cast
    field_simp
    ring
  have hr : ((roundHalfEven ((m : ℚ) * (2 : ℚ) ^ e / (2 : ℚ) ^ u) : Int) : ℚ) * (2 : ℚ) ^ u
      = (m : ℚ) * (2 : ℚ) ^ e := by
    rw [hdiv, roundHalfEven_intCast, hsplit]
    push_cast
    ring
  unfold Double.round
  simp only []
  rw [← hu, hr]
  have hbound : ¬ ((2 : ℚ) ^ (1024 : Nat) ≤ |(m : ℚ) * (2 : ℚ) ^ e|) := by
    rw [not_le, abs_mul, abs_of_pos (zpow_pos (by norm_num : (0 : ℚ) < 2) e)]
    have h1 := cast_abs_lt m hm
    have h2 : (2 : ℚ) ^ e ≤ (2 : ℚ) ^ (971 : Int) := zpow_le_zpow_right₀ (by norm_num) he2
    calc |(m : ℚ)| * (2 : ℚ) ^ e ≤ |(m : ℚ)| * (2 : ℚ) ^ (971 : Int) :=
          mul_le_mul_of_nonneg_left h2 (abs_nonneg _)
      _ < (2 : ℚ) ^ (53 : Nat) * (2 : ℚ) ^ (971 : Int) :=
          mul_lt_mul_of_pos_right h1 (zpow_pos (by norm_num) _)
      _ = (2 : ℚ) ^ (1024 : Nat) := by norm_num
  rw [if_neg hbound]

theorem ulpExponent_natCast (n : Nat) (l : Nat) (h1 : 2 ^ l ≤ n) (h2 : n < 2 ^ (l + 1))
    (h3 : 52 ≤ l) : ulpExponent (n : ℚ) = l - 52 := by
  unfold ulpExponent
  rw [abs_of_nonneg (Nat.cast_nonneg n), Int.log_natCast,
    Nat.log_eq_of_pow_le_of_lt_pow h1 h2]
  omega

theorem roundHalfEven_tie_odd (q : ℚ) (f : Int) (hq : q = f + 1 / 2) (hodd : f % 2 = 1) :
    roundHalfEven q = f + 1 := by
  have hf : ⌊q⌋ = f := by
    rw [Int.floor_eq_iff, hq]
    constructor <;> norm_num
  unfold roundHalfEven
  rw [hf, hq]
  norm_num
  omega

theorem roundHalfEven_tie_even (q : ℚ) (f : Int) (hq : q = f + 1 / 2) (heven : f % 2 = 0) :
    roundHalfEven q = f := by
  have hf : ⌊q⌋ = f := by
    rw [Int.floor_eq_iff, hq]
    constructor <;> norm_num
  unfold roundHalfEven
  rw [hf, hq]
  norm_num
  omega

theorem Double.round_two_pow_54_sub_one :
    Double.round (18014398509481984 - 1) = .finite 18014398509481984 := by
  have hq : (18014398509481984 - 1 : ℚ) = ((18014398509481983 : Nat) : ℚ) := by norm_num
  have hu : ulpExponent (18014398509481984 - 1) = 1 := by
    rw [hq, ulpExponent_natCast 18014398509481983 53 (by norm_num) (by norm_num) (by norm_num)]
    norm_num
  have hk : roundHalfEven ((18014398509481984 - 1) / (2 : ℚ) ^ (1 : Int))
      = 9007199254740991 + 1 :=
    roundHalfEven_tie_odd _ 9007199254740991 (by norm_num) (by norm_num)
  unfold Double.round
  simp only []
  rw [hu, hk]
  norm_num

theorem Double.round_two_pow_53_add_one :
    Double.round (9007199254740992 + 1) = .finite 9007199254740992 := by
  have hq : (9007199254740992 + 1 : ℚ) = ((9007199254740993 : Nat) : ℚ) := by norm_num
  have hu : ulpExponent (9007199254740992 + 1) = 1 := by
    rw [hq, ulpExponent_natCast 9007199254740993 53 (by norm_num) (by norm_num) (by norm_num)]
    norm_num
  have hk : roundHalfEven ((9007199254740992 + 1) / (2 : ℚ) ^ (1 : Int))
      = 4503599627370496 :=
    roundHalfEven_tie_even _ 4503599627370496 (by norm_num) (by norm_num)
  unfold Double.round
  simp only []
  rw [hu, hk]
  norm_num

/-! ## Theorems: `BankAccount` in `double` arithmetic -/

theorem Double.finite_lt_finite (a b : ℚ) : (Double.finite a < Double.finite b) ↔ a < b := by
  show Double.lt (.finite a) (.finite b) = true ↔ a < b
  simp [Double.lt]

theorem Double.finite_le_finite (a b : ℚ) : (Double.finite a ≤ Double.finite b) ↔ a ≤ b := by
  show Double.le (.finite a) (.finite b) = true ↔ a ≤ b
  simp [Double.le]

theorem Double.zero_eq : (0 : Double) = .finite 0 := rfl

theorem Double.finite_sub_finite (a b : ℚ) :
    (Double.finite a - Double.finite b : Double) = Double.round (a - b) := rfl

theorem Double.finite_add_finite (a b : ℚ) :
    (Double.finite a + Double.finite b : Double) = Double.round (a + b) := rfl

/-- On `double`, `x <= 0` excludes `x > 0`. -/
theorem Double.not_pos_of_le_zero (x : Double) (h : x ≤ 0) : ¬ x > 0 := by
  intro hpos
  cases x with
  | finite a =>
    rw [Double.zero_eq, Double.finite_le_finite] at h
    have hp : (0 : Double) < .finite a := hpos
    rw [Double.zero_eq, Double.finite_lt_finite] at hp
    exact absurd hp (not_lt.mpr h)
  | posInf => exact Bool.noConfusion (h : Double.le .posInf (.finite 0) = true)
  | negInf => exact Bool.noConfusion (hpos : Double.lt (.finite 0) .negInf = true)
  | nan => exact Bool.noConfusion (h : Double.le .nan (.finite 0) = true)

theorem isBinary64_intCast (k : Int) (hk : |k| < 2 ^ 53) : IsBinary64 (k : ℚ) :=
  ⟨k, 0, hk, by decide, by decide, by simp⟩

/-- C15 (counterexample): on an account with balance 2^54, `withdraw(1.0)`
returns `true` and leaves the balance at 2^54: the exact difference 2^54 - 1 is
not a `double` and rounds back to 2^54, so the balance has not decreased by
the amount. -/
theorem BankAccount.withdraw_one_from_large :
    (largeAccount.withdraw (.finite 1)).1 = true ∧
    (largeAccount.withdraw (.finite 1)).2.2.balance = largeAccount.balance ∧
    (largeAccount.withdraw (.finite 1)).2.2.balance
      ≠ .finite (18014398509481984 - 1) := by
  have hc : (Double.finite 1 > 0) ∧ Double.finite 1 ≤ largeAccount.balance := by
    constructor
    · show (0 : Double) < .finite 1
      rw [Double.zero_eq, Double.finite_lt_finite]; norm_num
    · show Double.finite 1 ≤ Double.finite 18014398509481984
      rw [Double.finite_le_finite]; norm_num
  have hw : largeAccount.withdraw (.finite 1)
      = (true, .withdrew (.finite 1),
          ⟨"123456", "John Doe", Double.finite 18014398509481984⟩) := by
    unfold BankAccount.withdraw
    rw [if_pos hc]
    show (true, AccountMessage.withdrew (Double.finite 1),
      (⟨"123456", "John Doe", Double.finite 18014398509481984 - Double.finite 1⟩ :
        BankAccount Double)) = _
    rw [Double.finite_sub_finite, Double.round_two_pow_54_sub_one]
  rw [hw]
  refine ⟨rfl, rfl, ?_⟩
  intro h
  injection h with h
  norm_num at h

/-- C15 (amended): `withdraw(amount)` returns `true` if and only if
`amount > 0` and `amount <= balance`; when it returns `true` the balance
becomes the `double` result of `balance - amount`, which is the balance less
exactly `amount` whenever the exact difference of the two finite values is a
`double`; when it returns `false` the balance (indeed the whole account) is
unchanged. -/
theorem BankAccount.withdraw_double (acct : BankAccount Double) (amount : Double) :
    ((acct.withdraw amount).1 = true ↔ amount > 0 ∧ amount ≤ acct.balance) ∧
    ((acct.withdraw amount).1 = true →
      (acct.withdraw amount).2.2.balance = acct.balance - amount) ∧
    (∀ b a : ℚ, acct.balance = .finite b → amount = .finite a → IsBinary64 (b - a) →
      (acct.withdraw amount).1 = true →
      (acct.withdraw amount).2.2.balance = .finite (b - a)) ∧
    ((acct.withdraw amount).1 = false →
      (acct.withdraw amount).2.2.balance = acct.balance ∧
      (acct.withdraw amount).2.2 = acct) := by
  obtain ⟨h1, h2, h3⟩ := BankAccount.withdraw_spec acct amount
  refine ⟨h1, h2, ?_, h3⟩
  intro b a hb ha hexact ht
  rw [h2 ht, hb, ha, Double.finite_sub_finite, Double.round_of_isBinary64 _ hexact]

theorem BankAccount.withdraw_double_witness :
    IsBinary64 (1500 - 200) ∧
    ((BankAccount.new "123456" "John Doe" (Double.finite 1500)).withdraw
      (.finite 200)).1 = true ∧
    ((BankAccount.new "123456" "John Doe" (Double.finite 1500)).withdraw
      (.finite 200)).2.2.balance = .finite (1500 - 200) := by
  have hx : IsBinary64 (1500 - 200) := by
    have := isBinary64_intCast 1300 (by decide)
    norm_num at this ⊢
    exact this
  have hspec := BankAccount.withdraw_double
    (BankAccount.new "123456" "John Doe" (Double.finite 1500)) (.finite 200)
  have ht : ((BankAccount.new "123456" "John Doe" (Double.finite 1500)).withdraw
      (.finite 200)).1 = true := by
    rw [hspec.1]
    constructor
    · show (0 : Double) < .finite 200
      rw [Double.zero_eq, Double.finite_lt_finite]; norm_num
    · show Double.finite 200 ≤ Double.finite 1500
      rw [Double.finite_le_finite]; norm_num
  exact ⟨hx, ht, hspec.2.2.1 1500 200 rfl rfl hx ht⟩

/-- C16 (counterexample): on an account with balance 2^53, `deposit(1.0)`
reports a deposit and leaves the balance at 2^53: the exact sum 2^53 + 1 is not a
`double` and rounds back to 2^53, so the balance has not increased by the
amount. -/
theorem BankAccount.deposit_one_on_round :
    Double.finite 1 > 0 ∧
    (roundAccount.deposit (.finite 1)).1 = .deposited (.finite 1) ∧
    (roundAccount.deposit (.finite 1)).2.balance = roundAccount.balance ∧
    (roundAccount.deposit (.finite 1)).2.balance ≠ .finite (9007199254740992 + 1) := by
  have hc : Double.finite 1 > 0 := by
    show (0 : Double) < .finite 1
    rw [Double.zero_eq, Double.finite_lt_finite]; norm_num
  have hd : roundAccount.deposit (.finite 1)
      = (.deposited (.finite 1), ⟨"123456", "John Doe", Double.finite 9007199254740992⟩) := by
    unfold BankAccount.deposit
    rw [if_pos hc]
    show (AccountMessage.deposited (Double.finite 1),
      (⟨"123456", "John Doe", Double.finite 9007199254740992 + Double.finite 1⟩ :
        BankAccount Double)) = _
    rw [Double.finite_add_finite, Double.round_two_pow_53_add_one]
  rw [hd]
  refine ⟨hc, rfl, rfl, ?_⟩
  intro h
  injection h with h
  norm_num at h

theorem Double.round_intCast (k : Int) (hk : |k| < 2 ^ 53) :
    Double.round (k : ℚ) = .finite (k : ℚ) :=
  Double.round_of_isBinary64 _ (isBinary64_intCast k hk)

theorem Double.finite_pos (a : ℚ) (h : 0 < a) : Double.finite a > 0 := by
  show (0 : Double) < .finite a
  rw [Double.zero_eq, Double.finite_lt_finite]
  exact h

/-- In `double` arithmetic `deposit(500.0)` on the account opened with 1000.0
gives balance 1500. -/
theorem BankAccount.demo_deposit :
    (BankAccount.new "123456" "John Doe" (Double.finite 1000)).deposit (.finite 500)
      = (.deposited (.finite 500), ⟨"123456", "John Doe", .finite 1500⟩) := by
  have e1 : (Double.finite 1000 + Double.finite 500 : Double) = .finite 1500 := by
    have c : (1000 + 500 : ℚ) = ((1500 : Int) : ℚ) := by norm_num
    rw [Double.finite_add_finite, c, Double.round_intCast 1500 (by decide)]
    norm_num
  unfold BankAccount.deposit
  rw [if_pos (Double.finite_pos 500 (by norm_num))]
  show (AccountMessage.deposited (Double.finite 500),
    (⟨"123456", "John Doe", Double.finite 1000 + Double.finite 500⟩ :
      BankAccount Double)) = _
  rw [e1]

/-- In `double` arithmetic `withdraw(200.0)` on the account with balance 1500
returns `true` and gives balance 1300. -/
theorem BankAccount.demo_withdraw :
    (⟨"123456", "John Doe", .finite 1500⟩ : BankAccount Double).withdraw (.finite 200)
      = (true, .withdrew (.finite 200), ⟨"123456", "John Doe", .finite 1300⟩) := by
  have e2 : (Double.finite 1500 - Double.finite 200 : Double) = .finite 1300 := by
    have c : (1500 - 200 : ℚ) = ((1300 : Int) : ℚ) := by norm_num
    rw [Double.finite_sub_finite, c, Double.round_intCast 1300 (by decide)]
    norm_num
  have h200 : Double.finite 200 > 0 ∧ Double.finite 200 ≤ Double.finite 1500 :=
    ⟨Double.finite_pos 200 (by norm_num), (Double.finite_le_finite 200 1500).mpr (by norm_num)⟩
  unfold BankAccount.withdraw
  rw [if_pos h200]
  show (true, AccountMessage.withdrew (Double.finite 200),
    (⟨"123456", "John Doe", Double.finite 1500 - Double.finite 200⟩ :
      BankAccount Double)) = _
  rw [e2]

/-- C16 (amended): when `amount > 0`, `deposit(amount)` reports the deposit and
the balance becomes the `double` result of `balance + amount`, which is the
balance plus exactly `amount` whenever the exact sum of the two finite values
is a `double`; when `amount <= 0` it leaves the account unchanged and reports
an invalid deposit; in the demo the account opened with 1000 has balance 1300
after `deposit(500)` and `withdraw(200)`. -/
theorem BankAccount.deposit_double (acct : BankAccount Double) (amount : Double) :
    (amount > 0 →
      (acct.deposit amount).2.balance = acct.balance + amount ∧
      (acct.deposit amount).1 = .deposited amount) ∧
    (∀ b a : ℚ, acct.balance = .finite b → amount = .finite a → IsBinary64 (b + a) →
      amount > 0 → (acct.deposit amount).2.balance = .finite (b + a)) ∧
    (amount ≤ 0 →
      (acct.deposit amount).2.balance = acct.balance ∧
      (acct.deposit amount).2 = acct ∧ (acct.deposit amount).1 = .invalidDeposit) ∧
    (((BankAccount.new "123456" "John Doe" (Double.finite 1000)).deposit
      (.finite 500)).2.withdraw (.finite 200)).2.2.getBalance = .finite 1300 := by
  have hpos : amount > 0 →
      (acct.deposit amount).2.balance = acct.balance + amount ∧
      (acct.deposit amount).1 = .deposited amount := by
    intro h
    unfold BankAccount.deposit
    rw [if_pos h]
    exact ⟨rfl, rfl⟩
  refine ⟨hpos, ?_, ?_, by rw [BankAccount.demo_deposit, BankAccount.demo_withdraw]; rfl⟩
  · intro b a hb ha hexact h
    rw [(hpos h).1, hb, ha, Double.finite_add_finite, Double.round_of_isBinary64 _ hexact]
  · intro h
    exact (BankAccount.deposit_spec acct amount (Double.not_pos_of_le_zero amount)).2.1 h

theorem BankAccount.deposit_double_witness :
    IsBinary64 (1000 + 500) ∧ Double.finite 500 > 0 ∧
    ((BankAccount.new "123456" "John Doe" (Double.finite 1000)).deposit
      (.finite 500)).2.balance = .finite (1000 + 500) := by
  have hx : IsBinary64 (1000 + 500) := by
    have := isBinary64_intCast 1500 (by decide)
    norm_num at this ⊢
    exact this
  have hp : Double.finite 500 > 0 := by
    show (0 : Double) < .finite 500
    rw [Double.zero_eq, Double.finite_lt_finite]; norm_num
  exact ⟨hx, hp, (BankAccount.deposit_double
    (BankAccount.new "123456" "John Doe" (Double.finite 1000)) (.finite 500)).2.1
      1000 500 rfl rfl hx hp⟩

/-! ## Theorems: `factorial` on a bounded call stack -/

/-- A call whose nested calls fit on the stack returns the value of
`factorial`. -/
theorem factorialOnStack_of_fits :
    ∀ (frames : Nat) (n : Int), n ≤ 2147483647 → max n 1 ≤ (frames : Int) →
      factorialOnStack frames n = some (factorial n) := by
  intro frames
  induction frames with
  | zero => intro n _ h; omega
  | succ frames ih =>
    intro n hn hfit
    unfold factorialOnStack
    by_cases h1 : n ≤ 1
    · rw [if_pos h1, factorial_of_le_one n h1]
    · have e : toInt32 (n - 1) = n - 1 := toInt32_of_range _ (by omega) (by omega)
      rw [if_neg h1, e, ih (n - 1) (by omega) (by omega)]
      simp only []
      rw [factorial.eq_1 n, dif_neg h1, e]

/-- A call that needs more nested calls than the stack has room for does not
return. -/
theorem factorialOnStack_of_exceeds :
    ∀ (frames : Nat) (n : Int), n ≤ 2147483647 → (frames : Int) < n →
      factorialOnStack frames n = none := by
  intro frames
  induction frames with
  | zero => intro n _ _; rfl
  | succ frames ih =>
    intro n hn hex
    unfold factorialOnStack
    have h1 : ¬ n ≤ 1 := by omega
    have e : toInt32 (n - 1) = n - 1 := toInt32_of_range _ (by omega) (by omega)
    rw [if_neg h1, e, ih (n - 1) (by omega) (by omega)]

/-- C18 (counterexample): `factorial(1000000)` needs a million nested calls;
the call stack of the documented build has room for fewer than 524288, so the
run exhausts the stack and does not return. -/
theorem factorialOnStack_million : factorialOnStack stackFrames 1000000 = none :=
  factorialOnStack_of_exceeds stackFrames 1000000 (by decide) (by decide)

/-- C18 (amended): `factorial(n)` returns for every `int` `n` whose nested calls
(`n` of them, one for `n <= 1`) fit on the call stack, and then with the value
of the recursion; it returns 1 for every `n <= 1`, negative `n` included; for
every `n` with `0 <= n <= 12` it returns exactly `n!`, which fits in 32 bits,
so no product on the way overflows; and `factorial(5)` is 120. -/
theorem factorialOnStack_spec (frames : Nat) (n m : Int) (k : Nat)
    (hn : n ≤ 2147483647) (hfit : max n 1 ≤ (frames : Int)) (hframes : 12 ≤ frames)
    (hm : m ≤ 1) (hk : k ≤ 12) :
    factorialOnStack frames n = some (factorial n) ∧
    factorialOnStack frames m = some 1 ∧
    factorialOnStack frames k = some (k.factorial : Int) ∧
    (k.factorial : Int) ≤ 2147483647 ∧
    factorialOnStack frames 5 = some 120 := by
  obtain ⟨_, h2, h3, h4⟩ := factorial_spec m k hm hk
  refine ⟨factorialOnStack_of_fits frames n hn hfit, ?_, ?_, h3, ?_⟩
  · rw [factorialOnStack_of_fits frames m (by omega) (by omega), factorial_of_le_one m hm]
  · rw [factorialOnStack_of_fits frames k (by omega) (by omega), h2]
  · rw [factorialOnStack_of_fits frames 5 (by omega) (by omega), h4]

theorem factorialOnStack_spec_witness :
    ((12 : Int) ≤ 2147483647 ∧ max (12 : Int) 1 ≤ ((stackFrames : Nat) : Int) ∧
      12 ≤ stackFrames ∧ (-3 : Int) ≤ 1 ∧ 12 ≤ 12) ∧
    factorialOnStack stackFrames 12 = some (factorial 12) ∧
    factorialOnStack stackFrames (-3) = some 1 :=
  ⟨⟨by decide, by decide, by decide, by decide, by decide⟩,
    (factorialOnStack_spec stackFrames 12 (-3) 12 (by decide) (by decide) (by decide)
      (by decide) (by decide)).1,
    (factorialOnStack_spec stackFrames 12 (-3) 12 (by decide) (by decide) (by decide)
      (by decide) (by decide)).2.1⟩

end CppLearning
